import Mathlib

/-!
# Verification of the ff-cli batch-operations tool

Shallow embedding, in Lean 4, of the core of the `ff-cli` Solana batch-operations
repository: the resumable batch-transfer engine (`executeTransfer`), the wallet-drain
orchestrator (`executeDrainWallet` and its helpers `transferAllTokens`,
`closeTokenAccounts`, `transferRemainingSol`), the progress store
(`loadProgress`), the decimal-to-raw-amount converter (`convertToRawAmount`),
and the wallet CSV reader (`readWalletsFromCSV`) with the positional pairing of
the batch-drain coordinator (`executeBatchDrainWallet`).

External collaborators (the Solana RPC connection, transaction submission and
confirmation, key cryptography, the file system, JSON parsing) are abstracted as
explicit inputs: an environment records the discovered assets, the queried
balances, and the outcome of each ledger-mutating submission in order; file
contents are passed as values.  JavaScript strings are embedded as `List Char`,
raw integer token amounts as `Nat`, and SOL/decimal amounts as `Rat` (the exact
value of the JavaScript number where the claims under study do not depend on
floating-point rounding; where a claim does depend on it — the decimal/raw
round trip — the IEEE-754 double rounding of integers is modelled explicitly).
-/

/- ## JavaScript string primitives used by the sources -/

/-- The whitespace characters relevant to `String.prototype.trim` for the inputs
under study (space, tab, carriage return, line feed). -/
def isSpaceChar (c : Char) : Bool :=
  c = ' ' || c = '\t' || c = '\r' || c = '\n'

/-- `s.trim()`: remove leading and trailing whitespace. -/
def jsTrim (l : List Char) : List Char :=
  ((l.dropWhile isSpaceChar).reverse.dropWhile isSpaceChar).reverse

/-- `s.split(sep)` for a one-character separator: the list of segments between
occurrences of `sep` (empty segments included, as in JavaScript). -/
def jsSplitOn (sep : Char) : List Char → List (List Char)
  | [] => [[]]
  | c :: t =>
    let r := jsSplitOn sep t
    if c = sep then [] :: r
    else
      match r with
      | h :: t' => (c :: h) :: t'
      | [] => [[c]]

/-- `c.toLowerCase()` on a single ASCII character. -/
def toLowerChar (c : Char) : Char :=
  if 'A' ≤ c ∧ c ≤ 'Z' then Char.ofNat (c.toNat + 32) else c

/-- `s.includes(pat)`: substring containment. -/
def hasSubstr (pat : List Char) : List Char → Bool
  | [] => pat.isEmpty
  | c :: t => pat.isPrefixOf (c :: t) || hasSubstr pat t

/- ## Decimal digit strings -/

/-- The character for decimal digit `n` (`'0'`–`'9'` when `n < 10`). -/
def digitChar (n : ℕ) : Char := Char.ofNat (48 + n)

/-- Whether `c` is one of `'0'`–`'9'`. -/
def isDigitCh (c : Char) : Bool := 48 ≤ c.toNat && c.toNat ≤ 57

/-- Numeric value of a digit character. -/
def charDigitVal (c : Char) : ℕ := c.toNat - 48

/-- Value of a big-endian list of digit characters (`foldl`, most significant first);
`[]` evaluates to `0`, matching JavaScript's `BigInt('') === 0n`. -/
def digitsVal (l : List Char) : ℕ :=
  l.foldl (fun a c => 10 * a + charDigitVal c) 0

/-- Fuel-driven core of decimal rendering of a natural number: peels the last
digit while fuel lasts.  Structural in the fuel so that closed computations
reduce inside the kernel. -/
def natDigitsCore : ℕ → ℕ → List Char → List Char
  | 0, _, acc => acc
  | fuel + 1, n, acc =>
    if n < 10 then digitChar n :: acc
    else natDigitsCore fuel (n / 10) (digitChar (n % 10) :: acc)

/-- Big-endian decimal digit string of `n` (JavaScript `n.toString()` for a
non-negative integer-valued number below `1e21`, which prints in plain notation). -/
def natDigits (n : ℕ) : List Char := natDigitsCore (n + 1) n []

/-- Exactly `d` big-endian decimal digits of `fr` (leading zeros kept):
the fractional block of a `d`-decimal fixed-point rendering. -/
def fracDigits : ℕ → ℕ → List Char
  | 0, _ => []
  | d + 1, fr => fracDigits d (fr / 10) ++ [digitChar (fr % 10)]

/-- Remove trailing `'0'` characters, as JavaScript number printing does for the
fractional part. -/
def stripTrailingZeros (l : List Char) : List Char :=
  (l.reverse.dropWhile (fun c => c = '0')).reverse

/- ## `convertToRawAmount` (src `utils.token.ts`) -/

/-- `decimalPart.padEnd(decimals, '0').substring(0, decimals)`: pad on the right with
`'0'` up to `d` characters, then truncate to `d` characters. -/
def padEndTake (l : List Char) (d : ℕ) : List Char :=
  (l ++ List.replicate (d - l.length) '0').take d

/-- JavaScript `BigInt(string)` on the strings reachable here: an optional leading
`'-'` followed by decimal digits yields the signed value (`''` yields `0`);
any other character (`'e'`, `'.'`, …) throws, modelled as `none`. -/
def jsBigIntOfString : List Char → Option ℤ
  | [] => some 0
  | c :: rest =>
    if c = '-' then
      if rest ≠ [] ∧ rest.all isDigitCh then some (-(digitsVal rest : ℤ)) else none
    else if (c :: rest).all isDigitCh then some (digitsVal (c :: rest) : ℤ) else none

/-- Embedding of `convertToRawAmount(amount, decimals)` from the source, taking the
string produced by `amount.toString()` (the function's own first step) as input:
split on `'.'` into integer and decimal part (a missing decimal part defaults to
the empty string, extra dot-separated segments are dropped, as with JavaScript
array destructuring of `split('.')`), pad/truncate the decimal part to `decimals`
characters, concatenate, and parse with `BigInt`. -/
def convertToRawAmount (amountStr : List Char) (decimals : ℕ) : Option ℤ :=
  let parts := jsSplitOn '.' amountStr
  let integerPart := parts.headD []
  let decimalPart := (parts.get? 1).getD []
  let paddedDecimalPart := padEndTake decimalPart decimals
  jsBigIntOfString (integerPart ++ paddedDecimalPart)

/-- The exact plain decimal string of the rational `x / 10 ^ d` (`x`, `d` naturals):
integer part, then — when the fractional part is non-zero — a dot and the `d`-digit
fractional block with trailing zeros removed.  This is the string JavaScript
`toString` prints whenever the number conversion and printing of `x / 10 ^ d` are
exact and in plain (non-exponential) notation. -/
def exactAmountString (x d : ℕ) : List Char :=
  let ip := x / 10 ^ d
  let fr := x % 10 ^ d
  if fr = 0 then natDigits ip
  else natDigits ip ++ '.' :: stripTrailingZeros (fracDigits d fr)

/- ## IEEE-754 double rounding of integers (for the raw-amount round trip) -/

/-- Fuel-driven bit length of a natural number (64 bits of fuel suffice for the
u64 raw token amounts under study). -/
def bitLenCore : ℕ → ℕ → ℕ
  | 0, _ => 0
  | fuel + 1, n => if n = 0 then 0 else bitLenCore fuel (n / 2) + 1

/-- Bit length of a raw u64 amount. -/
def bitLen (n : ℕ) : ℕ := bitLenCore 64 n

/-- Round `x` to the nearest multiple of `unit`, ties to the even multiple. -/
def roundHalfEven (x unit : ℕ) : ℕ :=
  let q := x / unit
  let r := x % unit
  if 2 * r < unit then q * unit
  else if 2 * r > unit then (q + 1) * unit
  else if q % 2 = 0 then q * unit else (q + 1) * unit

/-- The value of a non-negative integer below `2 ^ 64` after conversion to an
IEEE-754 double (53-bit significand, round to nearest, ties to even) — the
rounding performed by JavaScript `Number(string)` on an integer numeral. -/
def roundToDouble53 (x : ℕ) : ℕ :=
  if x < 2 ^ 53 then x else roundHalfEven x (2 ^ (bitLen x - 53))

/-- The string handed to `convertToRawAmount` by `transferAllTokens` for a raw
integer amount at `0` decimals: the JavaScript evaluation of
`(Number(raw.toString()) / Math.pow(10, 0)).toString()` — the integer is rounded
to the nearest double and printed in plain decimal (integers below `1e21` print
without an exponent; division by `1` is exact). -/
def amountStringAtZeroDecimals (raw : ℕ) : List Char :=
  natDigits (roundToDouble53 raw)

/- ## Exact rational arithmetic for JavaScript numbers

The SOL and token amounts the orchestration code manipulates are JavaScript
numbers; the claims settled against this part of the model do not depend on
floating-point rounding, so the amounts are embedded as exact rationals.  The
operations are written over `Rat.divInt` (num/den cross products) rather than the
field operations of `ℚ` so that closed runs of the model reduce inside the
kernel; the bridge lemmas below prove each operation equal to the corresponding
field operation of `ℚ`. -/

/-- Exact rational addition. -/
def qAdd (a b : ℚ) : ℚ := Rat.divInt (a.num * b.den + b.num * a.den) (a.den * b.den)

/-- Exact rational subtraction. -/
def qSub (a b : ℚ) : ℚ := Rat.divInt (a.num * b.den - b.num * a.den) (a.den * b.den)

/-- Exact rational multiplication. -/
def qMul (a b : ℚ) : ℚ := Rat.divInt (a.num * b.num) (a.den * b.den)

/-- Exact rational division (division by zero yields zero, as in `ℚ`). -/
def qDiv (a b : ℚ) : ℚ := Rat.divInt (a.num * b.den) (a.den * b.num)

/-- The rational value of a natural number. -/
def natToQ (n : ℕ) : ℚ := Rat.divInt (Int.ofNat n) 1

/-- `Math.floor` on an exact rational. -/
def qFloor (a : ℚ) : ℤ := a.num.fdiv a.den

theorem qAdd_eq (a b : ℚ) : qAdd a b = a + b := by
  rw [qAdd, Rat.divInt_eq_div]
  conv_rhs => rw [← Rat.num_div_den a, ← Rat.num_div_den b]
  have ha : ((a.den : ℚ)) ≠ 0 := by exact_mod_cast a.den_nz
  have hb : ((b.den : ℚ)) ≠ 0 := by exact_mod_cast b.den_nz
  field_simp

theorem qSub_eq (a b : ℚ) : qSub a b = a - b := by
  rw [qSub, Rat.divInt_eq_div]
  conv_rhs => rw [← Rat.num_div_den a, ← Rat.num_div_den b]
  have ha : ((a.den : ℚ)) ≠ 0 := by exact_mod_cast a.den_nz
  have hb : ((b.den : ℚ)) ≠ 0 := by exact_mod_cast b.den_nz
  field_simp
  ring

theorem qMul_eq (a b : ℚ) : qMul a b = a * b := by
  rw [qMul, Rat.divInt_eq_div]
  conv_rhs => rw [← Rat.num_div_den a, ← Rat.num_div_den b]
  have ha : ((a.den : ℚ)) ≠ 0 := by exact_mod_cast a.den_nz
  have hb : ((b.den : ℚ)) ≠ 0 := by exact_mod_cast b.den_nz
  field_simp

theorem qDiv_eq (a b : ℚ) : qDiv a b = a / b := by
  rw [qDiv, Rat.divInt_eq_div]
  rcases eq_or_ne b 0 with rfl | hb0
  · simp
  · conv_rhs => rw [← Rat.num_div_den a, ← Rat.num_div_den b]
    have ha : ((a.den : ℚ)) ≠ 0 := by exact_mod_cast a.den_nz
    have hb : ((b.den : ℚ)) ≠ 0 := by exact_mod_cast b.den_nz
    have hbn : ((b.num : ℚ)) ≠ 0 := by exact_mod_cast Rat.num_ne_zero.mpr hb0
    field_simp

theorem natToQ_eq (n : ℕ) : natToQ n = (n : ℚ) := by
  rw [natToQ, Rat.divInt_eq_div]
  simp

/-- `LAMPORTS_PER_SOL`. -/
def LAMPORTS_PER_SOL : ℕ := 1000000000

/-- A lamport count as SOL: `lamports / LAMPORTS_PER_SOL`. -/
def lamportsToSol (lamports : ℕ) : ℚ := qDiv (natToQ lamports) (natToQ LAMPORTS_PER_SOL)

/- ## Record store (src `utils.ts`) -/

/-- One recipient row of the batch-transfer engine (`RecipientRecord`):
destination address, amount as the decimal string read from the file, and the
completion flag (`transferred`, default `false`). -/
structure Recipient where
  address : String
  amount : String
  transferred : Bool
deriving DecidableEq, Repr

/-- Embedding of `loadProgress(progressFile)`: the file-system state at the path is
`none` (no file) or `some content`; `parseJson` abstracts `JSON.parse`, `none`
meaning a parse exception.  When the file is absent the function returns `null`;
when `JSON.parse` throws, the `catch` logs the error and the function likewise
returns `null` — the run continues. -/
def loadProgress {α : Type} (file : Option String)
    (parseJson : String → Option α) : Option α :=
  match file with
  | none => none
  | some content =>
    match parseJson content with
    | some v => some v
    | none => none

/-- The recipients list `executeTransfer` works from:
`loadProgress(progressFile) || readRecordsFromCSV(receiversPath, ...)` — the prior
snapshot when it loads, otherwise the freshly validated CSV rows. -/
def loadRecipients (file : Option String)
    (parseJson : String → Option (List Recipient))
    (csvRecords : List Recipient) : List Recipient :=
  (loadProgress file parseJson).getD csvRecords

/- ## Batch transfer engine (src `batch-transfer` module, `executeTransfer`) -/

/-- The chain as the engine sees it: the sender's queried balance in lamports, and
the outcome of the `n`-th transfer submission (`sendAndConfirmTransaction` inside
`transferSol`) counted from `0` in submission order. -/
structure EngineEnv where
  balanceLamports : ℕ
  sendOk : ℕ → Bool

/-- Mutable state of one engine run: the (aliased) recipients array, the
submissions issued so far as (address, amount-string) pairs, the snapshots
persisted by `saveProgress` after each success, and the submission counter. -/
structure RunState where
  recipients : List Recipient
  submissions : List (String × String)
  saves : List (List Recipient)
  n : ℕ
deriving DecidableEq, Repr

/-- Set the completion flag of the record at index `i` (`recipients[index].transferred
= true`); out-of-range indices leave the list unchanged. -/
def setTransferredTrue : List Recipient → ℕ → List Recipient
  | [], _ => []
  | r :: t, 0 => { r with transferred := true } :: t
  | r :: t, k + 1 => r :: setTransferredTrue t k

/-- `Array.prototype.findIndex`: index of the first element satisfying `p`
(`none` models `-1`). -/
def jsFindIndex {α : Type} (p : α → Bool) : List α → Option ℕ
  | [] => none
  | x :: t => if p x then some 0 else (jsFindIndex p t).map (· + 1)

/-- The matcher of the completion search:
`r.address === recipient.address && r.amount === recipient.amount`.
Note it does not consult the `transferred` flag. -/
def matchesPair (p : String × String) (r : Recipient) : Bool :=
  r.address == p.1 && r.amount == p.2

/-- The matcher the specification describes instead: the first record that is
not yet marked complete and whose (address, amount) pair matches.  Modelled from
the spec for the refinement comparison of the completion-marking step; the
source's matcher is `matchesPair`. -/
def specMatchesPair (p : String × String) (r : Recipient) : Bool :=
  !r.transferred && matchesPair p r

/-- One iteration of the inner transfer loop for the pending record with
(address, amount) pair `p`, generic in the completion matcher `pred`: submit the
transfer (outcome `sendOk st.n`); on success run `recipients.findIndex(...)` over
the current array, mark the found record and persist the whole snapshot; on
failure log and continue. -/
def processRecipientWith (pred : String × String → Recipient → Bool)
    (sendOk : ℕ → Bool) (st : RunState) (p : String × String) : RunState :=
  let st0 : RunState := { st with submissions := st.submissions ++ [p] }
  if sendOk st.n then
    match jsFindIndex (pred p) st0.recipients with
    | some i =>
      let rs' := setTransferredTrue st0.recipients i
      { st0 with recipients := rs', saves := st0.saves ++ [rs'], n := st.n + 1 }
    | none => { st0 with n := st.n + 1 }
  else { st0 with n := st.n + 1 }

/-- The loop over one batch (sequential submission). -/
def runBatchWith (pred : String × String → Recipient → Bool) (sendOk : ℕ → Bool) :
    RunState → List (String × String) → RunState
  | st, [] => st
  | st, p :: rest => runBatchWith pred sendOk (processRecipientWith pred sendOk st p) rest

/-- The loop over all batches. -/
def runBatchesWith (pred : String × String → Recipient → Bool) (sendOk : ℕ → Bool) :
    RunState → List (List (String × String)) → RunState
  | st, [] => st
  | st, b :: rest => runBatchesWith pred sendOk (runBatchWith pred sendOk st b) rest

/-- Fuel-driven partition of a list into slices of `b` elements
(`pendingTransfers.slice(i, i + batchSize)` for `i = 0, b, 2b, …`); the fuel is
instantiated with the list length, which always suffices. -/
def chunksCore (b : ℕ) : ℕ → List (String × String) → List (List (String × String))
  | 0, _ => []
  | _, [] => []
  | fuel + 1, x :: xs => (x :: xs.take (b - 1)) :: chunksCore b fuel (xs.drop (b - 1))

/-- Partition into batches of `b` (for `b ≥ 1`, as guaranteed by normalization). -/
def chunks (b : ℕ) (l : List (String × String)) : List (List (String × String)) :=
  chunksCore b l.length l

/-- Result of one engine run: whether the run aborted on the pre-flight balance
check (`process.exit(1)`), the submissions issued, the final recipients array,
and the snapshots persisted. -/
structure EngineResult where
  aborted : Bool
  submissions : List (String × String)
  final : List Recipient
  saves : List (List Recipient)
deriving DecidableEq, Repr

/-- The (address, amount) pairs of the records not yet marked complete, in file
order — the engine's submission set. -/
def pendingPairs (recipients : List Recipient) : List (String × String) :=
  (recipients.filter (fun r => r.transferred != true)).map
    (fun r => (r.address, r.amount))

/-- Embedding of `executeTransfer(rpcUrl, keypairPath, receiversPath, batchSize)`
from the point where the sender keypair has loaded and the recipients list has been
resolved (`loadProgress || readRecordsFromCSV`); key-load failure exits the process
before any of the steps modelled here.  `parseAmt` abstracts JavaScript
`parseFloat` on the amount strings; `batchSize` is `none` when `parseInt`
returned `NaN`; `pred` is the completion matcher (the source's is
`matchesPair`).  Steps, in source order: normalize the batch size to at least
`1`; query the sender balance; sum the amounts of incomplete records and
`process.exit(1)` when the balance is smaller (before any submission); otherwise
partition the pending records into batches and run the sequential transfer loop. -/
def executeTransferWith (pred : String × String → Recipient → Bool)
    (parseAmt : String → ℚ) (env : EngineEnv)
    (recipients : List Recipient) (batchSize : Option ℤ) : EngineResult :=
  let bs : ℤ := match batchSize with
    | none => 1
    | some b => if b < 1 then 1 else b
  let balanceInSol : ℚ := lamportsToSol env.balanceLamports
  let totalAmountNeeded : ℚ :=
    (recipients.filter (fun r => !r.transferred)).foldl
      (fun sum r => qAdd sum (parseAmt r.amount)) (natToQ 0)
  if balanceInSol < totalAmountNeeded then
    ⟨true, [], recipients, []⟩
  else
    let pending := pendingPairs recipients
    let finalSt := runBatchesWith pred env.sendOk ⟨recipients, [], [], 0⟩ (chunks bs.toNat pending)
    ⟨false, finalSt.submissions, finalSt.recipients, finalSt.saves⟩

/-- Embedding of `executeTransfer(rpcUrl, keypairPath, receiversPath, batchSize)`
with the source's completion matcher (`matchesPair`); see `executeTransferWith`
for the step-by-step account. -/
def executeTransfer (parseAmt : String → ℚ) (env : EngineEnv)
    (recipients : List Recipient) (batchSize : Option ℤ) : EngineResult :=
  executeTransferWith matchesPair parseAmt env recipients batchSize

/-- The engine with the completion matcher the specification describes (first
matching record NOT yet marked complete).  Modelled from the spec for the
refinement comparison; the source engine is `executeTransfer`. -/
def executeTransferSpecMarking (parseAmt : String → ℚ) (env : EngineEnv)
    (recipients : List Recipient) (batchSize : Option ℤ) : EngineResult :=
  executeTransferWith specMatchesPair parseAmt env recipients batchSize

/- ## Wallet drain orchestrator (src `drain-wallet.ts`, current revision)

The repository stages two revisions of the drain-wallet module; the current one
(the second module of the staged `file-crypto.ts`, matching the README's ATA
cost note) adds a keepSol pre-flight that throws outside dry-run mode, a
pre-loop ATA-creation/storage-cost estimate that aborts the token-transfer loop
by logging, and a reworked SOL sweep with a 0.002 SOL minimum-balance gate,
`getFeeForMessage`-based fee estimation and a dust threshold.  The definitions
below embed that revision. -/

/-- One discovered token account (`TokenAccountInfo`): mint and account
addresses, raw integer amount (held as its decimal string in the source),
mint decimals, owning token program, wrapped-SOL flag, and the account's
reclaimable rent in lamports. -/
structure TokenAccountInfo where
  mint : String
  address : String
  amount : ℕ
  decimals : ℕ
  programId : String
  isWSol : Bool
  rentLamports : ℕ
deriving DecidableEq, Repr

/-- Discovered wallet assets (`WalletAssets`): SOL balance, token accounts with
positive balance, and the summed reclaimable rent (both totals in SOL).
`discoverWalletAssets` builds this from read-only queries (`getBalance`,
`getTokenAccountsByOwner`, `getAccount`, `getParsedAccountInfo`); it issues no
ledger-mutating call, so the model takes its result as an environment input. -/
structure WalletAssets where
  solBalance : ℚ
  tokenAccounts : List TokenAccountInfo
  totalRentReclaim : ℚ
deriving DecidableEq, Repr

/-- Outcome record of one drain call (`DrainResult`). -/
structure DrainResult where
  success : Bool
  transferredSol : ℚ
  transferredTokens : List (String × ℚ)
  closedAccounts : ℕ
  reclaimedRent : ℚ
  finalBalance : ℚ
  errors : List String
deriving DecidableEq, Repr

/-- The option bag of `executeDrainWallet`, with the source's defaults. -/
structure DrainOptions where
  dryRun : Bool := false
  closeAccounts : Bool := true
  reclaimRent : Bool := true
  keepSol : ℚ := natToQ 0
  tokens : Option (List String) := none
  excludeTokens : Option (List String) := none
  minBalance : ℚ := natToQ 0
deriving DecidableEq, Repr

/-- A ledger-mutating submission (`sendAndConfirmTransaction`) issued by the
drain flow, tagged by the step that issued it. -/
inductive LedgerAction where
  | unwrap (account : String)
  | tokenTransfer (mint : String)
  | closeAccount (account : String)
  | solTransfer (lamports : ℤ)
deriving DecidableEq, Repr

/-- The chain as one drain call sees it: the discovered assets; the outcome of
the `n`-th ledger-mutating submission in issue order (`none` = confirmed,
`some e` = the submission threw with message `e`); the balance queried at the
start of the token-transfer step; which destination associated token accounts
are missing (`needsAta mint = true` when `getAccountInfo` of the recipient's
ATA for that mint returns null, so the transfer will have to create it); the
balance queried at the start of the final SOL sweep; the `getFeeForMessage`
response for the sweep (`none` models both a null value and a thrown error,
which the source maps to the same 0.0001 SOL fallback); and the balance of the
closing query. -/
structure ChainEnv where
  assets : WalletAssets
  txFail : ℕ → Option String
  transferLamports : ℕ
  needsAta : String → Bool
  sweepLamports : ℕ
  sweepFeeLamports : Option ℕ
  finalLamports : ℕ

/-- The displayed amount of a token account:
`Number(acc.amount) / Math.pow(10, acc.decimals)`. -/
def displayAmount (acc : TokenAccountInfo) : ℚ :=
  qDiv (natToQ acc.amount) (natToQ (10 ^ acc.decimals))

/-- The error-list entry of a failed WSOL unwrap. -/
def unwrapErrMsg (e : String) : String := "Failed to unwrap WSOL: " ++ e

/-- The error-list entry of a failed per-mint token transfer; the failing mint's
identifier is embedded in the message. -/
def tokenTransferErrMsg (mint e : String) : String :=
  "Failed to transfer tokens from mint " ++ mint ++ ": " ++ e

/-- The error-list entry of a failed account close. -/
def closeErrMsg (address e : String) : String :=
  "Failed to close token account " ++ address ++ ": " ++ e

/-- Accumulated outcome of the WSOL-unwrap step. -/
structure UnwrapOut where
  n : ℕ
  actions : List LedgerAction
  solGained : ℚ
  rentGained : ℚ
  errors : List String
deriving Repr

/-- The WSOL-unwrap loop of `executeDrainWallet` (step 1): for each wrapped-SOL
account, submit the sync-and-close transaction (`unwrapWSol`); on success credit
the unwrapped amount and the account's rent; on failure push
`Failed to unwrap WSOL: …` and continue. -/
def unwrapWsolAccounts (txFail : ℕ → Option String) (n0 : ℕ) :
    List TokenAccountInfo → UnwrapOut
  | [] => ⟨n0, [], natToQ 0, natToQ 0, []⟩
  | acc :: rest =>
    match txFail n0 with
    | none =>
      let o := unwrapWsolAccounts txFail (n0 + 1) rest
      ⟨o.n, LedgerAction.unwrap acc.address :: o.actions,
        qAdd (displayAmount acc) o.solGained,
        qAdd (lamportsToSol acc.rentLamports) o.rentGained, o.errors⟩
    | some e =>
      let o := unwrapWsolAccounts txFail (n0 + 1) rest
      ⟨o.n, LedgerAction.unwrap acc.address :: o.actions, o.solGained, o.rentGained,
        unwrapErrMsg e :: o.errors⟩

/-- Accumulated outcome of the token-transfer step. -/
structure TokenXferOut where
  n : ℕ
  actions : List LedgerAction
  transferred : List TokenAccountInfo
  errors : List String
deriving Repr

/-- The per-mint loop of `transferAllTokens`: loop over the token accounts in
order, skipping wrapped-SOL entries; for each other account submit one atomic
create-if-absent-and-transfer transaction (`executeAtomicTokenTransfer`); a
failure is caught, `Failed to transfer tokens from mint …` is appended, and the
loop continues. -/
def transferAllTokensLoop (txFail : ℕ → Option String) (n0 : ℕ) :
    List TokenAccountInfo → TokenXferOut
  | [] => ⟨n0, [], [], []⟩
  | acc :: rest =>
    if acc.isWSol then transferAllTokensLoop txFail n0 rest
    else
      match txFail n0 with
      | none =>
        let o := transferAllTokensLoop txFail (n0 + 1) rest
        ⟨o.n, LedgerAction.tokenTransfer acc.mint :: o.actions, acc :: o.transferred,
          o.errors⟩
      | some e =>
        let o := transferAllTokensLoop txFail (n0 + 1) rest
        ⟨o.n, LedgerAction.tokenTransfer acc.mint :: o.actions, o.transferred,
          tokenTransferErrMsg acc.mint e :: o.errors⟩

/-- `Math.max` on exact rationals. -/
def qMax (a b : ℚ) : ℚ := if a < b then b else a

theorem qMax_eq (a b : ℚ) : qMax a b = max a b := by
  unfold qMax
  rcases lt_or_le a b with h | h
  · rw [if_pos h, max_eq_right h.le]
  · rw [if_neg (not_lt.mpr h), max_eq_left h]

/-- `estimatedRentPerATA = 0.00203928` SOL: the source's fixed per-ATA
storage-deposit estimate. -/
def estimatedRentPerATA : ℚ := Rat.divInt 203928 100000000

/-- `atasToCreate`: among the non-wrapped accounts of the list, how many
destination associated token accounts are missing and will need creation
(the source derives each recipient ATA and reads its account info). -/
def atasToCreateOf (needsAta : String → Bool)
    (tokenAccounts : List TokenAccountInfo) : ℕ :=
  ((tokenAccounts.filter (fun acc => !acc.isWSol)).filter
    (fun acc => needsAta acc.mint)).length

/-- `estimatedATACreationCost = atasToCreate * estimatedRentPerATA`. -/
def estimatedATACreationCostOf (needsAta : String → Bool)
    (tokenAccounts : List TokenAccountInfo) : ℚ :=
  qMul (natToQ (atasToCreateOf needsAta tokenAccounts)) estimatedRentPerATA

/-- `totalEstimatedCost = estimatedATACreationCost + tokenAccounts.length *
0.00001` (per-transfer fees). -/
def totalEstimatedCostOf (needsAta : String → Bool)
    (tokenAccounts : List TokenAccountInfo) : ℚ :=
  qAdd (estimatedATACreationCostOf needsAta tokenAccounts)
    (qMul (natToQ tokenAccounts.length) (Rat.divInt 1 100000))

/-- `minimumSolNeeded = Math.max(totalEstimatedCost + 0.001, 0.002)`:
the estimate plus the fixed safety buffer, floored at 0.002 SOL. -/
def minimumSolNeededOf (needsAta : String → Bool)
    (tokenAccounts : List TokenAccountInfo) : ℚ :=
  qMax (qAdd (totalEstimatedCostOf needsAta tokenAccounts) (Rat.divInt 1 1000))
    (Rat.divInt 2 1000)

/-- The error-list entry pushed when the pre-loop balance check fails.  The
source interpolates the balances and the ATA count into the text; the numeric
interpolations are display-only and elided here. -/
def insufficientSolErrMsg : String :=
  "Insufficient SOL balance to cover token transfers"

/-- Embedding of `transferAllTokens` (current revision): before the per-mint
loop it queries the current balance, derives every destination ATA and counts
the missing ones, prices them at `estimatedRentPerATA` plus per-transfer fees
and the 0.001 safety buffer (minimum 0.002 SOL), and when the current balance
is below that estimate it logs an error, pushes it into the error list, and
RETURNS EARLY — the whole per-mint loop is skipped, no transfer submitted,
nothing thrown.  Otherwise it runs the per-mint loop. -/
def transferAllTokens (txFail : ℕ → Option String) (transferLamports : ℕ)
    (needsAta : String → Bool) (n0 : ℕ)
    (tokenAccounts : List TokenAccountInfo) : TokenXferOut :=
  let currentSol := lamportsToSol transferLamports
  if currentSol < minimumSolNeededOf needsAta tokenAccounts then
    ⟨n0, [], [], [insufficientSolErrMsg]⟩
  else transferAllTokensLoop txFail n0 tokenAccounts

/-- Accumulated outcome of the account-close step. -/
structure CloseOut where
  n : ℕ
  actions : List LedgerAction
  closed : ℕ
  reclaimedRent : ℚ
  errors : List String
deriving Repr

/-- Embedding of `closeTokenAccounts`: for each account, submit a close
transaction; on success count it and credit its rent; on failure push
`Failed to close token account …` and continue. -/
def closeTokenAccounts (txFail : ℕ → Option String) (n0 : ℕ) :
    List TokenAccountInfo → CloseOut
  | [] => ⟨n0, [], 0, natToQ 0, []⟩
  | acc :: rest =>
    match txFail n0 with
    | none =>
      let o := closeTokenAccounts txFail (n0 + 1) rest
      ⟨o.n, LedgerAction.closeAccount acc.address :: o.actions, o.closed + 1,
        qAdd (lamportsToSol acc.rentLamports) o.reclaimedRent, o.errors⟩
    | some e =>
      let o := closeTokenAccounts txFail (n0 + 1) rest
      ⟨o.n, LedgerAction.closeAccount acc.address :: o.actions, o.closed,
        o.reclaimedRent, closeErrMsg acc.address e :: o.errors⟩

/-- Outcome of the final SOL sweep. -/
structure SweepOut where
  n : ℕ
  actions : List LedgerAction
  res : Except String ℚ
deriving Repr

/-- Embedding of `transferRemainingSol` (current revision): query the current
balance and skip (warn, no submission) when it is below the hard 0.002 SOL
minimum; estimate the fee with `getFeeForMessage` (queried fee in lamports, or
the conservative 0.0001 SOL when the response value is null or the call throws)
and add the 0.001 SOL safety buffer; compute `transferAmount = currentSol -
keepAmount - totalFee` and skip when it is non-positive or below the 0.000001
SOL dust threshold; otherwise submit one native transfer of
`Math.floor(transferAmount * LAMPORTS_PER_SOL)` lamports — and, on failure, log
and RE-THROW the error (the call site in `executeDrainWallet` has no catch of
its own around this step).  The blockhash fetch and message compilation are
read-only and not modelled. -/
def transferRemainingSol (txFail : ℕ → Option String) (n0 : ℕ)
    (sweepLamports : ℕ) (feeLamports : Option ℕ) (keepAmount : ℚ) : SweepOut :=
  let currentSol := lamportsToSol sweepLamports
  let minRequiredSol : ℚ := Rat.divInt 2 1000
  if currentSol < minRequiredSol then ⟨n0, [], Except.ok (natToQ 0)⟩
  else
    let estimatedFee : ℚ := match feeLamports with
      | some f => lamportsToSol f
      | none => Rat.divInt 1 10000
    let safetyBuffer : ℚ := Rat.divInt 1 1000
    let totalFee := qAdd estimatedFee safetyBuffer
    let transferAmount := qSub (qSub currentSol keepAmount) totalFee
    if transferAmount ≤ 0 then ⟨n0, [], Except.ok (natToQ 0)⟩
    else if transferAmount < Rat.divInt 1 1000000 then ⟨n0, [], Except.ok (natToQ 0)⟩
    else
      let act := LedgerAction.solTransfer (qFloor (qMul transferAmount (natToQ LAMPORTS_PER_SOL)))
      match txFail n0 with
      | none => ⟨n0 + 1, [act], Except.ok transferAmount⟩
      | some e => ⟨n0 + 1, [act], Except.error e⟩

/-- The filter pipeline of `executeDrainWallet` (step Filter): restrict to an
explicit include list when one is given and non-empty, drop the mints of a
non-empty exclude list, then drop holdings whose displayed balance is below a
positive minimum. -/
def drainFiltered (assets : WalletAssets) (opts : DrainOptions) :
    List TokenAccountInfo :=
  let f1 := match opts.tokens with
    | some ts => if 0 < ts.length
        then assets.tokenAccounts.filter (fun acc => ts.contains acc.mint)
        else assets.tokenAccounts
    | none => assets.tokenAccounts
  let f2 := match opts.excludeTokens with
    | some ts => if 0 < ts.length
        then f1.filter (fun acc => !ts.contains acc.mint)
        else f1
    | none => f1
  if 0 < opts.minBalance then
    f2.filter (fun acc => opts.minBalance ≤ displayAmount acc)
  else f2

/-- The filtered wrapped-SOL accounts of one drain call. -/
def drainWsolAccounts (env : ChainEnv) (opts : DrainOptions) : List TokenAccountInfo :=
  (drainFiltered env.assets opts).filter (fun acc => acc.isWSol)

/-- The filtered non-wrapped accounts of one drain call. -/
def drainNonWsol (env : ChainEnv) (opts : DrainOptions) : List TokenAccountInfo :=
  (drainFiltered env.assets opts).filter (fun acc => !acc.isWSol)

/-- The unwrap step of one drain call (submission counter starts at 0). -/
def drainUnwrapOut (env : ChainEnv) (opts : DrainOptions) : UnwrapOut :=
  unwrapWsolAccounts env.txFail 0 (drainWsolAccounts env opts)

/-- The token-transfer step of one drain call. -/
def drainTokenOut (env : ChainEnv) (opts : DrainOptions) : TokenXferOut :=
  transferAllTokens env.txFail env.transferLamports env.needsAta
    (drainUnwrapOut env opts).n (drainNonWsol env opts)

/-- The account-close step of one drain call (runs only when both
`closeAccounts` and `reclaimRent` are set, and only over the accounts whose
transfer succeeded). -/
def drainCloseOut (env : ChainEnv) (opts : DrainOptions) : CloseOut :=
  let t := drainTokenOut env opts
  if opts.closeAccounts && opts.reclaimRent then
    closeTokenAccounts env.txFail t.n t.transferred
  else ⟨t.n, [], 0, natToQ 0, []⟩

/-- The final-sweep step of one drain call. -/
def drainSweepOut (env : ChainEnv) (opts : DrainOptions) : SweepOut :=
  transferRemainingSol env.txFail (drainCloseOut env opts).n env.sweepLamports
    env.sweepFeeLamports opts.keepSol

/-- The full outcome of one drain call: the ledger-mutating submissions issued,
and either the returned `DrainResult` or the thrown error. -/
structure DrainOutcome where
  actions : List LedgerAction
  result : Except String DrainResult
deriving Repr

deriving instance DecidableEq for Except

deriving instance DecidableEq for DrainOutcome

/-- The message of the keepSol pre-flight throw (numeric interpolations are
display-only and elided). -/
def keepSolErrMsg : String :=
  "Keep SOL amount exceeds current wallet balance"

/-- Embedding of `executeDrainWallet(rpcUrl, path, bs58, destination, options)`,
current revision.  `keyLoad` abstracts the source-keypair loading (file or
base58; `Except.error` when it throws — loading failure propagates out of the
function, fatal).  After discovery, a keepSol pre-flight: when
`keepSol > 0 && keepSol > assets.solBalance`, a warning is logged and — when
NOT in dry-run mode — an error is THROWN (terminal).  Then filtering and
preview; a dry run returns with a synthetic success result (`finalBalance` =
the discovered SOL balance) and no submission.  Otherwise: unwrap the filtered
WSOL accounts, transfer the remaining mints (`transferAllTokens`, with its
pre-loop cost gate), close the successfully transferred accounts when
configured, then sweep the remaining SOL — a sweep-submission failure
propagates out as a thrown error (the outer catch logs and re-throws); on
normal return `success` is `true` unconditionally (no code path sets it to
`false`), and the error list is the concatenation of the unwrap, transfer and
close errors.  The low-balance warning after the keepSol check is a log line,
and the result-CSV write at the end is file I/O, not a ledger call; neither is
modelled. -/
def executeDrainWallet (keyLoad : Except String Unit) (env : ChainEnv)
    (opts : DrainOptions) : DrainOutcome :=
  match keyLoad with
  | Except.error e => ⟨[], Except.error e⟩
  | Except.ok _ =>
    if 0 < opts.keepSol ∧ env.assets.solBalance < opts.keepSol ∧ opts.dryRun = false then
      ⟨[], Except.error keepSolErrMsg⟩
    else if opts.dryRun then
      ⟨[], Except.ok ⟨true, natToQ 0, [], 0, natToQ 0, env.assets.solBalance, []⟩⟩
    else
      let u := drainUnwrapOut env opts
      let t := drainTokenOut env opts
      let c := drainCloseOut env opts
      let s := drainSweepOut env opts
      let actions := u.actions ++ t.actions ++ c.actions ++ s.actions
      match s.res with
      | Except.error e => ⟨actions, Except.error e⟩
      | Except.ok swept =>
        ⟨actions, Except.ok
          ⟨true,
            qAdd u.solGained swept,
            t.transferred.map (fun acc => (acc.mint, displayAmount acc)),
            c.closed,
            qAdd u.rentGained c.reclaimedRent,
            lamportsToSol env.finalLamports,
            u.errors ++ t.errors ++ c.errors⟩⟩

/- ## Wallet CSV reader (src `utils.wallet.ts`) and batch-drain pairing -/

/-- One source wallet row (`WalletInfo`): address, base58 secret key, optional
array-format key. -/
structure WalletInfo where
  address : List Char
  base58Key : List Char
  arrayKey : Option (List Char)
deriving DecidableEq, Repr

/-- `record.indexOf(c, start)`: index of the first occurrence of `c` at or after
`start` (`none` models JavaScript's `-1`). -/
def idxOfFrom (c : Char) (l : List Char) (start : ℕ) : Option ℕ :=
  match (l.drop start).findIdx? (fun x => x = c) with
  | some k => some (start + k)
  | none => none

/-- Embedding of `fetchAddress(walletRecord)`: the trimmed text before the first
comma; `none` when there is no comma or the text is empty (the source throws). -/
def fetchAddress (record : List Char) : Option (List Char) :=
  match idxOfFrom ',' record 0 with
  | none => none
  | some i =>
    let address := jsTrim (record.take i)
    if address = [] then none else some address

/-- Embedding of `fetchBs58Key(walletRecord)`: the trimmed text between the
first and second commas; `none` when either comma is missing or the text is
empty (the source throws). -/
def fetchBs58Key (record : List Char) : Option (List Char) :=
  match idxOfFrom ',' record 0 with
  | none => none
  | some i =>
    match idxOfFrom ',' record (i + 1) with
    | none => none
    | some j =>
      let key := jsTrim ((record.take j).drop (i + 1))
      if key = [] then none else some key

/-- Embedding of `parseWalletRecord(walletRecord)`: address and base58 key are
required (a failure of either throws, modelled as `none`); the array key is the
trimmed text between the second and third commas (or to the end of the record),
dropped when empty. -/
def parseWalletRecord (record : List Char) : Option WalletInfo :=
  match fetchAddress record, fetchBs58Key record with
  | some address, some base58Key =>
    let arrayKey :=
      match idxOfFrom ',' record 0 with
      | none => none
      | some i =>
        match idxOfFrom ',' record (i + 1) with
        | none => none
        | some j =>
          let raw :=
            match idxOfFrom ',' record (j + 1) with
            | some k => (record.take k).drop (j + 1)
            | none => record.drop (j + 1)
          let trimmed := jsTrim raw
          if trimmed = [] then none else some trimmed
    some ⟨address, base58Key, arrayKey⟩
  | _, _ => none

/-- The per-line step of `readWalletsFromCSV`'s loop: trim the line, skip it when
empty, otherwise parse it — a parse failure is caught, a warning is printed, and
the loop continues with the next line (the failed line is dropped). -/
def parseWalletLine (line : List Char) : Option WalletInfo :=
  let line := jsTrim line
  if line = [] then none else parseWalletRecord line

/-- The data lines of a wallets file: split the content on newlines, keep the
lines that are non-empty after trimming, and skip the first remaining line when
its lower-cased text contains `address` (a header). -/
def walletDataLines (content : List Char) : List (List Char) :=
  let lines := (jsSplitOn '\n' content).filter (fun l => !(jsTrim l).isEmpty)
  let start : ℕ :=
    match lines with
    | [] => 0
    | l0 :: _ =>
      if hasSubstr ['a', 'd', 'd', 'r', 'e', 's', 's'] (l0.map toLowerChar) then 1 else 0
  lines.drop start

/-- Embedding of `readWalletsFromCSV(filePath)` over the file's content: parse
each data line, silently dropping every line that fails to parse, so the
returned list is compacted (no gap at a dropped position). -/
def readWalletsFromCSV (content : List Char) : List WalletInfo :=
  (walletDataLines content).filterMap parseWalletLine

/-- The positional pairing of `executeBatchDrainWallet`: the loop runs
`i = 0 … min(sources.length, destinations.length) - 1` and processes the pair
`(sourceWallets[i], destinationAddresses[i])` — exactly the element-wise zip of
the two lists. -/
def batchDrainPairs (sourceWallets : List WalletInfo)
    (destinationAddresses : List (List Char)) : List (WalletInfo × List Char) :=
  sourceWallets.zip destinationAddresses

/- ## Engine lemmas: the submission set of one run -/

theorem processRecipientWith_submissions (pred : String × String → Recipient → Bool)
    (sendOk : ℕ → Bool) (st : RunState) (p : String × String) :
    (processRecipientWith pred sendOk st p).submissions = st.submissions ++ [p] := by
  unfold processRecipientWith
  dsimp only
  split
  · split <;> rfl
  · rfl

theorem runBatchWith_submissions (pred : String × String → Recipient → Bool)
    (sendOk : ℕ → Bool) :
    ∀ (b : List (String × String)) (st : RunState),
      (runBatchWith pred sendOk st b).submissions = st.submissions ++ b
  | [], st => by simp [runBatchWith]
  | p :: rest, st => by
    rw [runBatchWith, runBatchWith_submissions pred sendOk rest,
      processRecipientWith_submissions]
    simp

theorem runBatchesWith_submissions (pred : String × String → Recipient → Bool)
    (sendOk : ℕ → Bool) :
    ∀ (bs : List (List (String × String))) (st : RunState),
      (runBatchesWith pred sendOk st bs).submissions = st.submissions ++ bs.flatten
  | [], st => by simp [runBatchesWith]
  | b :: rest, st => by
    rw [runBatchesWith, runBatchesWith_submissions pred sendOk rest,
      runBatchWith_submissions]
    simp

theorem chunksCore_join (b : ℕ) :
    ∀ (fuel : ℕ) (l : List (String × String)), l.length ≤ fuel →
      (chunksCore b fuel l).flatten = l
  | 0, [], _ => rfl
  | 0, _ :: _, h => by simp at h
  | fuel + 1, [], _ => rfl
  | fuel + 1, x :: xs, h => by
    rw [chunksCore]
    have hd : (xs.drop (b - 1)).length ≤ fuel := by
      have := List.length_drop (b - 1) xs
      have hx : xs.length ≤ fuel := by simpa using h
      omega
    simp only [List.flatten]
    rw [chunksCore_join b fuel _ hd]
    simp [List.take_append_drop]

theorem chunks_join (b : ℕ) (l : List (String × String)) : (chunks b l).flatten = l :=
  chunksCore_join b l.length l le_rfl

/-- C1: for every loaded snapshot, a run of the batch transfer engine submits
exactly the records whose completion flag is not `true`, in file order — every
record marked complete is excluded from the submission set (and when the
pre-flight balance check aborts the run, nothing at all is submitted). -/
theorem c1_completed_records_never_resubmitted (parseAmt : String → ℚ)
    (env : EngineEnv) (recipients : List Recipient) (batchSize : Option ℤ) :
    (executeTransfer parseAmt env recipients batchSize).submissions
      = if (executeTransfer parseAmt env recipients batchSize).aborted then []
        else pendingPairs recipients := by
  unfold executeTransfer executeTransferWith
  dsimp only
  split
  · rfl
  · dsimp only
    rw [runBatchesWith_submissions]
    simp [chunks_join]

/-- C2: when the sum of the amounts over the records not yet marked complete
exceeds the sender's queried balance, the engine aborts the whole run before any
submission: no transfer is submitted, no snapshot is saved, and the recipients
list is returned unchanged. -/
theorem c2_preflight_balance_guard (parseAmt : String → ℚ) (env : EngineEnv)
    (recipients : List Recipient) (batchSize : Option ℤ)
    (h : lamportsToSol env.balanceLamports <
      (recipients.filter (fun r => !r.transferred)).foldl
        (fun sum r => qAdd sum (parseAmt r.amount)) (natToQ 0)) :
    executeTransfer parseAmt env recipients batchSize
      = ⟨true, [], recipients, []⟩ := by
  unfold executeTransfer executeTransferWith
  dsimp only
  rw [if_pos h]

/-- Witness for C2 at a concrete input: one pending recipient of amount `1`,
sender balance `0` lamports — the engine aborts with no submission and the
snapshot unchanged. -/
theorem c2_preflight_balance_guard_witness :
    executeTransfer (fun _ => natToQ 1) ⟨0, fun _ => true⟩
      [⟨"A", "0.1", false⟩] (some 1)
      = ⟨true, [], [⟨"A", "0.1", false⟩], []⟩ :=
  c2_preflight_balance_guard (fun _ => natToQ 1) ⟨0, fun _ => true⟩
    [⟨"A", "0.1", false⟩] (some 1) (by decide)

/- ## Engine lemmas: the completion-marking step -/

/-- The (address, amount) value pair of a record. -/
def pairOf (r : Recipient) : String × String := (r.address, r.amount)

theorem matchesPair_iff (p : String × String) (r : Recipient) :
    matchesPair p r = true ↔ pairOf r = p := by
  cases p
  simp [matchesPair, pairOf, Prod.ext_iff, and_comm]

theorem setTransferredTrue_get?_ne :
    ∀ (rs : List Recipient) (i j : ℕ), i ≠ j →
      (setTransferredTrue rs i).get? j = rs.get? j
  | [], _, _, _ => rfl
  | r :: t, 0, 0, h => absurd rfl h
  | r :: t, 0, j + 1, _ => rfl
  | r :: t, i + 1, 0, _ => rfl
  | r :: t, i + 1, j + 1, h => by
    have : i ≠ j := fun hc => h (by rw [hc])
    simpa [setTransferredTrue] using setTransferredTrue_get?_ne t i j this

theorem setTransferredTrue_pairOf :
    ∀ (rs : List Recipient) (i k : ℕ),
      ((setTransferredTrue rs i).get? k).map pairOf = (rs.get? k).map pairOf
  | [], _, _ => rfl
  | r :: t, 0, 0 => rfl
  | r :: t, 0, k + 1 => rfl
  | r :: t, i + 1, 0 => rfl
  | r :: t, i + 1, k + 1 => by
    simpa [setTransferredTrue] using setTransferredTrue_pairOf t i k

theorem jsFindIndex_found {α : Type} (p : α → Bool) :
    ∀ (l : List α) (i : ℕ), jsFindIndex p l = some i →
      ∃ x, l.get? i = some x ∧ p x = true
  | [], _, h => Option.noConfusion h
  | x :: t, i, h => by
    rw [jsFindIndex] at h
    by_cases hp : p x
    · rw [if_pos hp] at h
      cases h
      exact ⟨x, rfl, hp⟩
    · rw [if_neg hp] at h
      match hrec : jsFindIndex p t with
      | none => rw [hrec] at h; simp at h
      | some i' =>
        rw [hrec] at h
        simp only [Option.map_some'] at h
        cases h
        obtain ⟨y, hy, hpy⟩ := jsFindIndex_found p t i' hrec
        exact ⟨y, by simpa using hy, hpy⟩

theorem jsFindIndex_min {α : Type} (p : α → Bool) :
    ∀ (l : List α) (i : ℕ), jsFindIndex p l = some i →
      ∀ (k : ℕ) (x : α), k < i → l.get? k = some x → p x = false
  | [], _, h => Option.noConfusion h
  | y :: t, i, h => by
    rw [jsFindIndex] at h
    by_cases hp : p y
    · rw [if_pos hp] at h
      cases h
      intro k x hk
      omega
    · rw [if_neg hp] at h
      match hrec : jsFindIndex p t with
      | none => rw [hrec] at h; simp at h
      | some i' =>
        rw [hrec] at h
        simp only [Option.map_some'] at h
        cases h
        intro k x hk hget
        match k with
        | 0 =>
          simp only [List.get?] at hget
          cases hget
          simpa using hp
        | k + 1 =>
          exact jsFindIndex_min p t i' hrec k x (by omega) (by simpa using hget)

/-- The invariant carried through one run for the duplicate-row analysis: the
value pairs of the working array agree position-wise with the loaded snapshot
(marking never changes an address or an amount), and the record at position `j`
is still exactly the loaded one. -/
def markInvariant (orig : List Recipient) (j : ℕ) (rj : Recipient)
    (rs : List Recipient) : Prop :=
  (∀ k, (rs.get? k).map pairOf = (orig.get? k).map pairOf) ∧ rs.get? j = some rj

theorem processRecipientWith_markInvariant (sendOk : ℕ → Bool)
    (orig : List Recipient) (i j : ℕ) (ri rj : Recipient)
    (hij : i < j) (hi : orig.get? i = some ri) (hpair : pairOf ri = pairOf rj)
    (st : RunState) (p : String × String)
    (hinv : markInvariant orig j rj st.recipients) :
    markInvariant orig j rj (processRecipientWith matchesPair sendOk st p).recipients := by
  obtain ⟨hpairs, hj⟩ := hinv
  unfold processRecipientWith
  dsimp only
  by_cases hok : sendOk st.n
  · rw [if_pos hok]
    match hfind : jsFindIndex (matchesPair p) st.recipients with
    | none => exact ⟨hpairs, hj⟩
    | some m =>
      dsimp only
      have hmj : m ≠ j := by
        intro hmj
        subst hmj
        obtain ⟨x, hx, hpx⟩ := jsFindIndex_found (matchesPair p) st.recipients m hfind
        rw [hj] at hx
        cases hx
        have hpj : pairOf rj = p := (matchesPair_iff p rj).mp hpx
        have hpi : (st.recipients.get? i).map pairOf = some (pairOf ri) := by
          rw [hpairs i, hi]; rfl
        match hgi : st.recipients.get? i with
        | none => rw [hgi] at hpi; simp at hpi
        | some xi =>
          rw [hgi] at hpi
          have hxi : pairOf xi = p := by
            have hpi2 : pairOf xi = pairOf ri := by simpa using hpi
            rw [hpi2, hpair, hpj]
          have := jsFindIndex_min (matchesPair p) st.recipients m hfind i xi hij hgi
          rw [(matchesPair_iff p xi).mpr hxi] at this
          exact absurd this (by simp)
      constructor
      · intro k
        rw [setTransferredTrue_pairOf, hpairs k]
      · rw [setTransferredTrue_get?_ne st.recipients m j hmj, hj]
  · rw [if_neg hok]
    exact ⟨hpairs, hj⟩

theorem runBatchWith_markInvariant (sendOk : ℕ → Bool)
    (orig : List Recipient) (i j : ℕ) (ri rj : Recipient)
    (hij : i < j) (hi : orig.get? i = some ri) (hpair : pairOf ri = pairOf rj) :
    ∀ (b : List (String × String)) (st : RunState),
      markInvariant orig j rj st.recipients →
      markInvariant orig j rj (runBatchWith matchesPair sendOk st b).recipients
  | [], st, hinv => hinv
  | p :: rest, st, hinv =>
    runBatchWith_markInvariant sendOk orig i j ri rj hij hi hpair rest _
      (processRecipientWith_markInvariant sendOk orig i j ri rj hij hi hpair st p hinv)

theorem runBatchesWith_markInvariant (sendOk : ℕ → Bool)
    (orig : List Recipient) (i j : ℕ) (ri rj : Recipient)
    (hij : i < j) (hi : orig.get? i = some ri) (hpair : pairOf ri = pairOf rj) :
    ∀ (bs : List (List (String × String))) (st : RunState),
      markInvariant orig j rj st.recipients →
      markInvariant orig j rj (runBatchesWith matchesPair sendOk st bs).recipients
  | [], st, hinv => hinv
  | b :: rest, st, hinv =>
    runBatchesWith_markInvariant sendOk orig i j ri rj hij hi hpair rest _
      (runBatchWith_markInvariant sendOk orig i j ri rj hij hi hpair b st hinv)

/-- C8 counterexample: two identical pending rows `("A", "1")`, batch size 1,
ample balance, every submission confirmed.  The claim predicts that each success
marks the first matching record NOT yet marked complete, so after both
successes both rows would be complete (the behaviour of
`executeTransferSpecMarking`, built from the spec's matcher).  The code's
`findIndex` ignores the flag: the second success re-marks row 0 and row 1 is
left unmarked. -/
theorem c8_first_match_counterexample :
    (executeTransfer (fun _ => natToQ 0) ⟨0, fun _ => true⟩
        [⟨"A", "1", false⟩, ⟨"A", "1", false⟩] (some 1)).final
      = [⟨"A", "1", true⟩, ⟨"A", "1", false⟩]
    ∧ (executeTransferSpecMarking (fun _ => natToQ 0) ⟨0, fun _ => true⟩
        [⟨"A", "1", false⟩, ⟨"A", "1", false⟩] (some 1)).final
      = [⟨"A", "1", true⟩, ⟨"A", "1", true⟩]
    ∧ ([(⟨"A", "1", true⟩ : Recipient), ⟨"A", "1", false⟩]
        ≠ [(⟨"A", "1", true⟩ : Recipient), ⟨"A", "1", true⟩]) := by
  refine ⟨by decide, by decide, by decide⟩

/-- C8 amended: on success the engine marks the first record in the full list
whose (address, amount) pair matches, REGARDLESS of its completion flag
(`findIndex` does not test `transferred`); consequently a record that is
preceded by an identical (address, amount) row is never marked by any run —
it leaves the engine exactly as it was loaded. -/
theorem c8_duplicate_row_never_marked (parseAmt : String → ℚ) (env : EngineEnv)
    (recipients : List Recipient) (batchSize : Option ℤ) (i j : ℕ)
    (ri rj : Recipient) (hij : i < j)
    (hi : recipients.get? i = some ri) (hj : recipients.get? j = some rj)
    (hpair : pairOf ri = pairOf rj) (hflag : rj.transferred = false) :
    (executeTransfer parseAmt env recipients batchSize).final.get? j = some rj := by
  unfold executeTransfer executeTransferWith
  dsimp only
  split
  · exact hj
  · dsimp only
    exact (runBatchesWith_markInvariant env.sendOk recipients i j ri rj hij hi hpair
      _ _ ⟨fun _ => rfl, hj⟩).2

/-- Witness for the amended C8 at the duplicate-row input of the counterexample:
row 1 is still unmarked — and unchanged — after the run. -/
theorem c8_duplicate_row_never_marked_witness :
    (executeTransfer (fun _ => natToQ 0) ⟨0, fun _ => true⟩
        [⟨"A", "1", false⟩, ⟨"A", "1", false⟩] (some 1)).final.get? 1
      = some ⟨"A", "1", false⟩ :=
  c8_duplicate_row_never_marked (fun _ => natToQ 0) ⟨0, fun _ => true⟩
    [⟨"A", "1", false⟩, ⟨"A", "1", false⟩] (some 1) 0 1
    ⟨"A", "1", false⟩ ⟨"A", "1", false⟩ (by decide) rfl rfl rfl rfl

/- ## C7: `loadProgress` and the unparseable-snapshot path -/

/-- C7 counterexample: a progress file EXISTS at the path but its contents do
not parse — `loadProgress` returns absent all the same (refuting "absent exactly
when no file exists"), and the engine's recipients resolution falls back to the
freshly read CSV rows and the run continues (refuting "treated as a fatal
configuration error: the run stops"). -/
theorem c7_unparseable_progress_counterexample :
    loadProgress (some "not json") (fun _ => (none : Option (List Recipient))) = none
    ∧ loadRecipients (some "not json") (fun _ => none)
        [⟨"A", "1", false⟩] = [⟨"A", "1", false⟩] :=
  ⟨rfl, rfl⟩

/-- C7 amended: `loadProgress(path)` returns absent when no file exists at the
path AND ALSO when a file exists but its contents cannot be parsed — the parse
error is caught and logged, and the run continues, silently falling back to the
raw recipients CSV; a parseable file yields its records. -/
theorem c7_load_progress_absent_or_unparseable
    (parseJson : String → Option (List Recipient)) (content : String)
    (csv : List Recipient) (v : List Recipient) :
    loadProgress (none : Option String) parseJson = none
    ∧ (parseJson content = none →
        loadProgress (some content) parseJson = none
        ∧ loadRecipients (some content) parseJson csv = csv)
    ∧ (parseJson content = some v →
        loadProgress (some content) parseJson = some v) := by
  refine ⟨rfl, fun h => ⟨?_, ?_⟩, fun h => ?_⟩
  · simp [loadProgress, h]
  · simp [loadRecipients, loadProgress, h]
  · simp [loadProgress, h]

/-- Witness for the amended C7 at a concrete input: an existing file whose
parse fails is treated as absent. -/
theorem c7_load_progress_absent_or_unparseable_witness :
    loadProgress (some "x") (fun _ => (none : Option (List Recipient))) = none
    ∧ loadRecipients (some "x") (fun _ => none)
        [(⟨"B", "2", false⟩ : Recipient)] = [⟨"B", "2", false⟩] :=
  (c7_load_progress_absent_or_unparseable (fun _ => none) "x"
    [⟨"B", "2", false⟩] []).2.1 rfl

/- ## Drain lemmas: shape of one non-dry run -/

theorem executeDrainWallet_keepSol_throws (env : ChainEnv) (opts : DrainOptions)
    (hdry : opts.dryRun = false)
    (hks : 0 < opts.keepSol ∧ env.assets.solBalance < opts.keepSol) :
    executeDrainWallet (Except.ok ()) env opts = ⟨[], Except.error keepSolErrMsg⟩ := by
  dsimp only [executeDrainWallet]
  rw [if_pos ⟨hks.1, hks.2, hdry⟩]

theorem executeDrainWallet_actions_eq (env : ChainEnv) (opts : DrainOptions)
    (hdry : opts.dryRun = false)
    (hks : ¬(0 < opts.keepSol ∧ env.assets.solBalance < opts.keepSol)) :
    (executeDrainWallet (Except.ok ()) env opts).actions
      = (drainUnwrapOut env opts).actions ++ (drainTokenOut env opts).actions
        ++ (drainCloseOut env opts).actions ++ (drainSweepOut env opts).actions := by
  dsimp only [executeDrainWallet]
  rw [if_neg (fun hc => hks ⟨hc.1, hc.2.1⟩), hdry]
  rw [if_neg (by simp)]
  split <;> rfl

theorem executeDrainWallet_error_iff (env : ChainEnv) (opts : DrainOptions)
    (hdry : opts.dryRun = false)
    (hks : ¬(0 < opts.keepSol ∧ env.assets.solBalance < opts.keepSol)) (e : String) :
    (executeDrainWallet (Except.ok ()) env opts).result = Except.error e
      ↔ (drainSweepOut env opts).res = Except.error e := by
  dsimp only [executeDrainWallet]
  rw [if_neg (fun hc => hks ⟨hc.1, hc.2.1⟩), hdry]
  rw [if_neg (by simp)]
  split
  · rename_i e' heq
    rw [heq]
    simp
  · rename_i swept heq
    rw [heq]
    simp

theorem executeDrainWallet_ok_shape (env : ChainEnv) (opts : DrainOptions)
    (hdry : opts.dryRun = false) (r : DrainResult)
    (hres : (executeDrainWallet (Except.ok ()) env opts).result = Except.ok r) :
    r.success = true
    ∧ r.errors = (drainUnwrapOut env opts).errors ++ (drainTokenOut env opts).errors
        ++ (drainCloseOut env opts).errors := by
  by_cases hks : 0 < opts.keepSol ∧ env.assets.solBalance < opts.keepSol
  · rw [executeDrainWallet_keepSol_throws env opts hdry hks] at hres
    simp at hres
  · dsimp only [executeDrainWallet] at hres
    rw [if_neg (fun hc => hks ⟨hc.1, hc.2.1⟩), hdry] at hres
    rw [if_neg (by simp)] at hres
    revert hres
    split
    · intro hres
      simp at hres
    · rename_i swept heq
      intro hres
      simp only [Except.ok.injEq] at hres
      subst hres
      exact ⟨rfl, rfl⟩

/- ## Per-step lemmas of the token-transfer loop -/

theorem transferAllTokensLoop_failed_mint_in_errors (txFail : ℕ → Option String) :
    ∀ (accs : List TokenAccountInfo) (n0 k : ℕ) (acc : TokenAccountInfo) (e : String),
      (∀ x ∈ accs, x.isWSol = false) → accs.get? k = some acc →
      txFail (n0 + k) = some e →
      tokenTransferErrMsg acc.mint e ∈ (transferAllTokensLoop txFail n0 accs).errors
  | [], _, k, _, _, _, hk, _ => by simp at hk
  | a :: rest, n0, k, acc, e, hall, hk, he => by
    have ha : a.isWSol = false := hall a (List.mem_cons_self a rest)
    rw [transferAllTokensLoop, if_neg (by simp [ha])]
    match k with
    | 0 =>
      have hacc : a = acc := by simpa using hk
      subst hacc
      have he0 : txFail n0 = some e := by simpa using he
      rw [he0]
      exact List.mem_cons_self _ _
    | k + 1 =>
      have hrest : tokenTransferErrMsg acc.mint e
          ∈ (transferAllTokensLoop txFail (n0 + 1) rest).errors :=
        transferAllTokensLoop_failed_mint_in_errors txFail rest (n0 + 1) k acc e
          (fun x hx => hall x (List.mem_cons_of_mem a hx))
          (by simpa using hk) (by rw [show n0 + 1 + k = n0 + (k + 1) by omega]; exact he)
      cases htx : txFail n0 <;> simp [htx, hrest]

theorem unwrapWsolAccounts_actions_shape (txFail : ℕ → Option String) :
    ∀ (accs : List TokenAccountInfo) (n0 : ℕ) (a : LedgerAction),
      a ∈ (unwrapWsolAccounts txFail n0 accs).actions →
      ∃ addr, a = LedgerAction.unwrap addr
  | [], _, _, hmem => absurd hmem (List.not_mem_nil _)
  | acc :: rest, n0, a, hmem => by
    rw [unwrapWsolAccounts] at hmem
    cases htx : txFail n0 <;> rw [htx] at hmem <;>
      rcases List.mem_cons.mp hmem with h | h
    · exact ⟨acc.address, h⟩
    · exact unwrapWsolAccounts_actions_shape txFail rest (n0 + 1) a h
    · exact ⟨acc.address, h⟩
    · exact unwrapWsolAccounts_actions_shape txFail rest (n0 + 1) a h

theorem closeTokenAccounts_actions_shape (txFail : ℕ → Option String) :
    ∀ (accs : List TokenAccountInfo) (n0 : ℕ) (a : LedgerAction),
      a ∈ (closeTokenAccounts txFail n0 accs).actions →
      ∃ addr, a = LedgerAction.closeAccount addr
  | [], _, _, hmem => absurd hmem (List.not_mem_nil _)
  | acc :: rest, n0, a, hmem => by
    rw [closeTokenAccounts] at hmem
    cases htx : txFail n0 <;> rw [htx] at hmem <;>
      rcases List.mem_cons.mp hmem with h | h
    · exact ⟨acc.address, h⟩
    · exact closeTokenAccounts_actions_shape txFail rest (n0 + 1) a h
    · exact ⟨acc.address, h⟩
    · exact closeTokenAccounts_actions_shape txFail rest (n0 + 1) a h

theorem transferRemainingSol_actions_shape (txFail : ℕ → Option String)
    (n0 : ℕ) (sweepLamports : ℕ) (feeLamports : Option ℕ) (keepAmount : ℚ)
    (a : LedgerAction)
    (hmem : a ∈ (transferRemainingSol txFail n0 sweepLamports feeLamports
      keepAmount).actions) :
    ∃ l, a = LedgerAction.solTransfer l := by
  unfold transferRemainingSol at hmem
  dsimp only at hmem
  revert hmem
  repeat' split
  all_goals intro hmem
  all_goals
    first
      | exact absurd hmem (List.not_mem_nil _)
      | (rw [List.mem_singleton] at hmem; exact ⟨_, hmem⟩)

theorem drainCloseOut_actions_shape (env : ChainEnv) (opts : DrainOptions)
    (a : LedgerAction) (hmem : a ∈ (drainCloseOut env opts).actions) :
    ∃ addr, a = LedgerAction.closeAccount addr := by
  unfold drainCloseOut at hmem
  dsimp only at hmem
  revert hmem
  split
  · intro hmem
    exact closeTokenAccounts_actions_shape env.txFail _ _ _ hmem
  · intro hmem
    exact absurd hmem (List.not_mem_nil _)

/-- The claim's pre-loop condition (balance below ATA-creation cost plus the
fixed safety buffer) implies the code's gate (which also adds per-transfer fees
and floors the requirement at 0.002 SOL). -/
theorem transferGate_of_cost_margin (needsAta : String → Bool)
    (accs : List TokenAccountInfo) (lamports : ℕ)
    (h : lamportsToSol lamports
      < qAdd (estimatedATACreationCostOf needsAta accs) (Rat.divInt 1 1000)) :
    lamportsToSol lamports < minimumSolNeededOf needsAta accs := by
  rw [qAdd_eq] at h
  unfold minimumSolNeededOf totalEstimatedCostOf
  rw [qMax_eq, qAdd_eq, qAdd_eq]
  have hfees : (0:ℚ) ≤ qMul (natToQ accs.length) (Rat.divInt 1 100000) := by
    rw [qMul_eq, natToQ_eq, Rat.divInt_eq_div]
    positivity
  refine lt_of_lt_of_le ?_ (le_max_left _ _)
  linarith

/- ## C3, C4, C5, C6 -/

/-- The concrete environment of the C3 counterexample: key loads, keepSol is 0
(the keepSol pre-flight passes), no token accounts, 1 SOL at the transfer and
sweep stages, a queried sweep fee of 5000 lamports, and every submission fails
with `boom` — so the only submission issued is the final native-SOL sweep
(1 - 0.000005 - 0.001 = 0.998995 SOL), and it fails. -/
def sweepFailEnv : ChainEnv :=
  ⟨⟨natToQ 1, [], natToQ 0⟩, fun _ => some "boom", 1000000000, fun _ => false,
    1000000000, some 5000, 0⟩

/-- C3 counterexample: in `sweepFailEnv` (not a dry run, key loaded, keepSol
pre-flight passed), the final native-SOL sweep's submission fails and
`executeDrainWallet` THROWS (`result` is the propagated error, not an `ok`
carrying the error in its list) — a sub-operation error in the sweep does abort
the drain call, contrary to the claim. -/
theorem c3_sweep_error_throws_counterexample :
    (executeDrainWallet (Except.ok ()) sweepFailEnv {}).actions
      = [LedgerAction.solTransfer 998995000]
    ∧ (executeDrainWallet (Except.ok ()) sweepFailEnv {}).result
      = Except.error "boom" := by
  refine ⟨by decide, by decide⟩

/-- C3 amended: once the key has loaded, in a non-dry run in which the keepSol
pre-flight does not throw, errors in the WSOL unwrap, the per-mint token
transfers, and the account closes are captured into the returned result's error
list and the sequence continues (a normal return carries exactly those captured
errors, concatenated in step order) — but an error in the final native-SOL
sweep's submission is NOT captured: the drain call throws exactly when that
sweep submission fails. -/
theorem c3_error_capture_and_sweep_throw (env : ChainEnv) (opts : DrainOptions)
    (hdry : opts.dryRun = false)
    (hks : ¬(0 < opts.keepSol ∧ env.assets.solBalance < opts.keepSol)) (e : String) :
    ((executeDrainWallet (Except.ok ()) env opts).result = Except.error e
      ↔ (drainSweepOut env opts).res = Except.error e)
    ∧ (∀ r : DrainResult,
        (executeDrainWallet (Except.ok ()) env opts).result = Except.ok r →
        r.errors = (drainUnwrapOut env opts).errors ++ (drainTokenOut env opts).errors
          ++ (drainCloseOut env opts).errors) :=
  ⟨executeDrainWallet_error_iff env opts hdry hks e,
    fun r hres => (executeDrainWallet_ok_shape env opts hdry r hres).2⟩

/-- Witness for the amended C3 in `sweepFailEnv`: the drain call throws `boom`
if and only if the sweep step failed with `boom` (and it did). -/
theorem c3_error_capture_and_sweep_throw_witness :
    ((executeDrainWallet (Except.ok ()) sweepFailEnv {}).result = Except.error "boom"
      ↔ (drainSweepOut sweepFailEnv {}).res = Except.error "boom")
    ∧ (drainSweepOut sweepFailEnv {}).res = Except.error "boom" :=
  ⟨(c3_error_capture_and_sweep_throw sweepFailEnv {} rfl (by decide) "boom").1,
    by decide⟩

/-- C4: with `dryRun` set, once discovery has run, `executeDrainWallet` issues
zero ledger-mutating submissions and returns a `DrainResult` with `success =
true`, zero SOL and no tokens transferred, zero accounts closed, zero rent
reclaimed, an empty error list, and `finalBalance` equal to the discovered SOL
balance (discovery itself performs only read queries, and the keepSol
pre-flight only warns in dry-run mode). -/
theorem c4_dry_run_no_op (env : ChainEnv) (opts : DrainOptions)
    (hdry : opts.dryRun = true) :
    executeDrainWallet (Except.ok ()) env opts
      = ⟨[], Except.ok ⟨true, natToQ 0, [], 0, natToQ 0, env.assets.solBalance, []⟩⟩ := by
  dsimp only [executeDrainWallet]
  rw [if_neg (by simp [hdry]), hdry]
  rfl

/-- Witness for C4 at a concrete input: a wallet holding 7 SOL and one token
account, drained in dry-run mode with a keepSol of 9 SOL exceeding the balance
(so the pre-flight warns but must not throw) against an environment where any
submission would fail — nothing is submitted and the synthetic success result
is returned. -/
theorem c4_dry_run_no_op_witness :
    executeDrainWallet (Except.ok ())
      ⟨⟨natToQ 7, [⟨"M", "TA", 5, 0, "P", false, 2039280⟩], natToQ 0⟩,
        fun _ => some "refused", 7000000000, fun _ => true, 7000000000, none, 0⟩
      { dryRun := true, keepSol := natToQ 9 }
      = ⟨[], Except.ok ⟨true, natToQ 0, [], 0, natToQ 0, natToQ 7, []⟩⟩ :=
  c4_dry_run_no_op
    ⟨⟨natToQ 7, [⟨"M", "TA", 5, 0, "P", false, 2039280⟩], natToQ 0⟩,
      fun _ => some "refused", 7000000000, fun _ => true, 7000000000, none, 0⟩
    { dryRun := true, keepSol := natToQ 9 } rfl

/-- C5: in a run that returns (key loaded, not dry), when the pre-loop balance
gate of `transferAllTokens` passes and the per-mint transfer of the `k`-th
non-WSOL holding fails, the returned `DrainResult` still has `success = true`
and the failing mint's identifier appears in its error list (inside the
`Failed to transfer tokens from mint …` entry). -/
theorem c5_partial_failure_still_success (env : ChainEnv) (opts : DrainOptions)
    (k : ℕ) (acc : TokenAccountInfo) (e : String) (r : DrainResult)
    (hdry : opts.dryRun = false)
    (hgate : ¬(lamportsToSol env.transferLamports
      < minimumSolNeededOf env.needsAta (drainNonWsol env opts)))
    (hacc : (drainNonWsol env opts).get? k = some acc)
    (hfail : env.txFail ((drainUnwrapOut env opts).n + k) = some e)
    (hres : (executeDrainWallet (Except.ok ()) env opts).result = Except.ok r) :
    r.success = true ∧ tokenTransferErrMsg acc.mint e ∈ r.errors := by
  obtain ⟨hsucc, herrs⟩ := executeDrainWallet_ok_shape env opts hdry r hres
  refine ⟨hsucc, ?_⟩
  rw [herrs]
  have htok : drainTokenOut env opts
      = transferAllTokensLoop env.txFail (drainUnwrapOut env opts).n
        (drainNonWsol env opts) := by
    unfold drainTokenOut transferAllTokens
    rw [if_neg hgate]
  have hmem : tokenTransferErrMsg acc.mint e ∈ (drainTokenOut env opts).errors := by
    rw [htok]
    refine transferAllTokensLoop_failed_mint_in_errors env.txFail
      (drainNonWsol env opts) (drainUnwrapOut env opts).n k acc e ?_ hacc hfail
    intro x hx
    simpa using (List.mem_filter.mp hx).2
  exact List.mem_append.mpr (Or.inl (List.mem_append.mpr (Or.inr hmem)))

/-- The concrete environment of the C5 witness: one non-WSOL holding of mint
`M` whose destination ATA already exists, a balance of exactly 0.002 SOL at the
transfer stage (the gate's floor, so the pre-loop check passes), and the mint's
transfer (submission 0) fails with `err`; the sweep-stage balance of 0 makes
the sweep skip, so the run returns. -/
def mintFailEnv : ChainEnv :=
  ⟨⟨natToQ 0, [⟨"M", "TA", 5, 0, "P", false, 2039280⟩], natToQ 0⟩,
    fun n => if n = 0 then some "err" else none, 2000000, fun _ => false,
    0, none, 0⟩

/-- Witness for C5 in `mintFailEnv`: the run returns `success = true` with
`Failed to transfer tokens from mint M: err` in the error list. -/
theorem c5_partial_failure_still_success_witness :
    (⟨true, natToQ 0, [], 0, natToQ 0, natToQ 0,
        [tokenTransferErrMsg "M" "err"]⟩ : DrainResult).success = true
    ∧ tokenTransferErrMsg "M" "err"
      ∈ (⟨true, natToQ 0, [], 0, natToQ 0, natToQ 0,
          [tokenTransferErrMsg "M" "err"]⟩ : DrainResult).errors :=
  c5_partial_failure_still_success mintFailEnv {} 0
    ⟨"M", "TA", 5, 0, "P", false, 2039280⟩ "err"
    ⟨true, natToQ 0, [], 0, natToQ 0, natToQ 0, [tokenTransferErrMsg "M" "err"]⟩
    rfl (by decide) (by decide) (by decide) (by decide)

/-- C6: before the per-mint loop, `transferAllTokens` estimates the number of
destination token accounts that will need creation and their storage-deposit
cost; when the current native balance cannot cover that cost plus the fixed
safety buffer, the whole transfer loop is aborted by logging (the error is
pushed into the list and the function returns normally — nothing is thrown),
so no per-mint transfer submission is issued anywhere in the run. -/
theorem c6_preflight_estimate_aborts_loop (env : ChainEnv) (opts : DrainOptions)
    (hcost : lamportsToSol env.transferLamports
      < qAdd (estimatedATACreationCostOf env.needsAta (drainNonWsol env opts))
          (Rat.divInt 1 1000)) :
    drainTokenOut env opts
      = ⟨(drainUnwrapOut env opts).n, [], [], [insufficientSolErrMsg]⟩
    ∧ ∀ m : String, LedgerAction.tokenTransfer m
        ∉ (executeDrainWallet (Except.ok ()) env opts).actions := by
  have hgate : lamportsToSol env.transferLamports
      < minimumSolNeededOf env.needsAta (drainNonWsol env opts) :=
    transferGate_of_cost_margin env.needsAta (drainNonWsol env opts)
      env.transferLamports hcost
  have htok : drainTokenOut env opts
      = ⟨(drainUnwrapOut env opts).n, [], [], [insufficientSolErrMsg]⟩ := by
    unfold drainTokenOut transferAllTokens
    rw [if_pos hgate]
  refine ⟨htok, ?_⟩
  intro m hmem
  by_cases hdry : opts.dryRun = true
  · rw [show executeDrainWallet (Except.ok ()) env opts
        = ⟨[], Except.ok ⟨true, natToQ 0, [], 0, natToQ 0,
            env.assets.solBalance, []⟩⟩ by
      dsimp only [executeDrainWallet]
      rw [if_neg (by simp [hdry]), hdry]
      rfl] at hmem
    exact absurd hmem (List.not_mem_nil _)
  · have hdry' : opts.dryRun = false := by
      cases h : opts.dryRun
      · rfl
      · exact absurd h hdry
    by_cases hks : 0 < opts.keepSol ∧ env.assets.solBalance < opts.keepSol
    · rw [executeDrainWallet_keepSol_throws env opts hdry' hks] at hmem
      exact absurd hmem (List.not_mem_nil _)
    · rw [executeDrainWallet_actions_eq env opts hdry' hks] at hmem
      rcases List.mem_append.mp hmem with h3 | hsw
      · rcases List.mem_append.mp h3 with h2 | hc
        · rcases List.mem_append.mp h2 with hu | ht
          · obtain ⟨addr, habs⟩ :=
              unwrapWsolAccounts_actions_shape env.txFail _ _ _ hu
            exact LedgerAction.noConfusion habs
          · rw [htok] at ht
            exact absurd ht (List.not_mem_nil _)
        · obtain ⟨addr, habs⟩ := drainCloseOut_actions_shape env opts _ hc
          exact LedgerAction.noConfusion habs
      · obtain ⟨l, habs⟩ :=
          transferRemainingSol_actions_shape env.txFail _ _ _ _ _ hsw
        exact LedgerAction.noConfusion habs

/-- The concrete environment of the C6 witness: a wallet with 0 SOL at the
transfer stage (unable to cover any account-creation cost plus the safety
buffer) holding one non-WSOL token account of mint `M` whose destination ATA
is missing. -/
def zeroBalanceTokenEnv : ChainEnv :=
  ⟨⟨natToQ 0, [⟨"M", "TA", 5, 0, "P", false, 2039280⟩], natToQ 0⟩,
    fun _ => none, 0, fun _ => true, 0, none, 0⟩

/-- Witness for C6 in `zeroBalanceTokenEnv`: the pre-loop estimate aborts the
transfer loop with the logged `Insufficient SOL balance…` entry and no transfer
submission for mint `M` is issued. -/
theorem c6_preflight_estimate_aborts_loop_witness :
    drainTokenOut zeroBalanceTokenEnv {}
      = ⟨(drainUnwrapOut zeroBalanceTokenEnv {}).n, [], [], [insufficientSolErrMsg]⟩
    ∧ LedgerAction.tokenTransfer "M"
      ∉ (executeDrainWallet (Except.ok ()) zeroBalanceTokenEnv {}).actions :=
  ⟨(c6_preflight_estimate_aborts_loop zeroBalanceTokenEnv {} (by decide)).1,
    (c6_preflight_estimate_aborts_loop zeroBalanceTokenEnv {} (by decide)).2 "M"⟩

/- ## Digit-string lemmas for the raw-amount round trip -/

theorem digitsVal_foldl (B : List Char) : ∀ (a : ℕ),
    B.foldl (fun x c => 10 * x + charDigitVal c) a
      = a * 10 ^ B.length + digitsVal B := by
  induction B with
  | nil => intro a; simp [digitsVal]
  | cons c t ih =>
    intro a
    have hval : digitsVal (c :: t) = charDigitVal c * 10 ^ t.length + digitsVal t := by
      show (c :: t).foldl _ 0 = _
      simp only [List.foldl_cons]
      rw [ih (10 * 0 + charDigitVal c)]
      ring
    simp only [List.foldl_cons, List.length_cons]
    rw [ih (10 * a + charDigitVal c), hval]
    ring

theorem digitsVal_cons (c : Char) (t : List Char) :
    digitsVal (c :: t) = charDigitVal c * 10 ^ t.length + digitsVal t := by
  show (c :: t).foldl _ 0 = _
  simp only [List.foldl_cons]
  rw [digitsVal_foldl t (10 * 0 + charDigitVal c)]
  ring

theorem digitsVal_append (A B : List Char) :
    digitsVal (A ++ B) = digitsVal A * 10 ^ B.length + digitsVal B := by
  show (A ++ B).foldl _ 0 = _
  rw [List.foldl_append, digitsVal_foldl B (A.foldl _ 0)]
  rfl

theorem digitsVal_replicate_zero (d : ℕ) :
    digitsVal (List.replicate d '0') = 0 := by
  induction d with
  | zero => rfl
  | succ d ih =>
    rw [List.replicate_succ, digitsVal_cons, ih]
    have h0 : charDigitVal '0' = 0 := by decide
    rw [h0]
    ring

theorem digitChar_spec (n : ℕ) (h : n < 10) :
    charDigitVal (digitChar n) = n ∧ isDigitCh (digitChar n) = true := by
  interval_cases n <;> exact ⟨by decide, by decide⟩

theorem natDigitsCore_acc (fuel : ℕ) : ∀ (n : ℕ) (acc : List Char), n < 10 ^ fuel →
    natDigitsCore fuel n acc = natDigitsCore fuel n [] ++ acc := by
  induction fuel with
  | zero =>
    intro n acc h
    rfl
  | succ fuel ih =>
    intro n acc h
    by_cases hn : n < 10
    · simp [natDigitsCore, hn]
    · rw [natDigitsCore, if_neg hn, natDigitsCore, if_neg hn]
      have hd : n / 10 < 10 ^ fuel := by
        rw [Nat.div_lt_iff_lt_mul (by norm_num : (0:ℕ) < 10)]
        calc n < 10 ^ (fuel + 1) := h
        _ = 10 ^ fuel * 10 := by rw [pow_succ]
      rw [ih (n / 10) (digitChar (n % 10) :: acc) hd,
        ih (n / 10) [digitChar (n % 10)] hd]
      simp

theorem natDigitsCore_spec (fuel : ℕ) : ∀ (n : ℕ), n < 10 ^ fuel →
    digitsVal (natDigitsCore fuel n []) = n
    ∧ ∀ c ∈ natDigitsCore fuel n [], isDigitCh c = true := by
  induction fuel with
  | zero =>
    intro n h
    have : n = 0 := by simpa using h
    subst this
    exact ⟨rfl, by intro c hc; simp [natDigitsCore] at hc⟩
  | succ fuel ih =>
    intro n h
    by_cases hn : n < 10
    · rw [natDigitsCore, if_pos hn]
      obtain ⟨hv, hd⟩ := digitChar_spec n hn
      constructor
      · rw [digitsVal_cons, hv]
        simp [digitsVal]
      · intro c hc
        simp only [List.mem_singleton] at hc
        rw [hc, hd]
    · rw [natDigitsCore, if_neg hn]
      have hd : n / 10 < 10 ^ fuel := by
        rw [Nat.div_lt_iff_lt_mul (by norm_num : (0:ℕ) < 10)]
        calc n < 10 ^ (fuel + 1) := h
        _ = 10 ^ fuel * 10 := by rw [pow_succ]
      obtain ⟨ihv, ihd⟩ := ih (n / 10) hd
      rw [natDigitsCore_acc fuel (n / 10) [digitChar (n % 10)] hd]
      obtain ⟨hv10, hd10⟩ := digitChar_spec (n % 10) (Nat.mod_lt n (by norm_num))
      constructor
      · rw [digitsVal_append, ihv]
        simp only [List.length_singleton]
        have : digitsVal [digitChar (n % 10)] = n % 10 := by
          rw [show [digitChar (n % 10)] = digitChar (n % 10) :: [] from rfl,
            digitsVal_cons, hv10]
          simp [digitsVal]
        rw [this]
        omega
      · intro c hc
        rcases List.mem_append.mp hc with hc | hc
        · exact ihd c hc
        · simp only [List.mem_singleton] at hc
          rw [hc, hd10]

theorem natDigits_spec (n : ℕ) :
    digitsVal (natDigits n) = n ∧ ∀ c ∈ natDigits n, isDigitCh c = true := by
  refine natDigitsCore_spec (n + 1) n ?_
  calc n < 10 ^ n := Nat.lt_pow_self (by norm_num) n
  _ ≤ 10 ^ (n + 1) := Nat.pow_le_pow_right (by norm_num) (Nat.le_succ n)

theorem fracDigits_spec : ∀ (d fr : ℕ),
    (fracDigits d fr).length = d
    ∧ digitsVal (fracDigits d fr) = fr % 10 ^ d
    ∧ ∀ c ∈ fracDigits d fr, isDigitCh c = true := by
  intro d
  induction d with
  | zero =>
    intro fr
    refine ⟨rfl, by simp [fracDigits, digitsVal]; omega, by intro c hc; simp [fracDigits] at hc⟩
  | succ d ih =>
    intro fr
    obtain ⟨ihl, ihv, ihd⟩ := ih (fr / 10)
    obtain ⟨hv10, hd10⟩ := digitChar_spec (fr % 10) (Nat.mod_lt fr (by norm_num))
    have hsingle : digitsVal [digitChar (fr % 10)] = fr % 10 := by
      rw [show [digitChar (fr % 10)] = digitChar (fr % 10) :: [] from rfl,
        digitsVal_cons, hv10]
      simp [digitsVal]
    refine ⟨?_, ?_, ?_⟩
    · rw [fracDigits, List.length_append, ihl]
      simp
    · rw [fracDigits, digitsVal_append, ihv, hsingle]
      simp only [List.length_singleton]
      have hmm : fr % (10 * 10 ^ d) = fr % 10 + 10 * (fr / 10 % 10 ^ d) := Nat.mod_mul
      have hp : (10:ℕ) ^ (d + 1) = 10 * 10 ^ d := by ring
      rw [hp, hmm]
      ring
    · intro c hc
      rw [fracDigits] at hc
      rcases List.mem_append.mp hc with hc | hc
      · exact ihd c hc
      · simp only [List.mem_singleton] at hc
        rw [hc, hd10]

/- ## Strip/pad and split lemmas for the raw-amount round trip -/

theorem stripTrailingZeros_decomp (L : List Char) :
    (stripTrailingZeros L).length ≤ L.length
    ∧ L = stripTrailingZeros L
        ++ List.replicate (L.length - (stripTrailingZeros L).length) '0' := by
  have hsplit : L.reverse.takeWhile (fun c => c = '0')
      ++ L.reverse.dropWhile (fun c => c = '0') = L.reverse :=
    List.takeWhile_append_dropWhile _ _
  have hrep : L.reverse.takeWhile (fun c => c = '0')
      = List.replicate (L.reverse.takeWhile (fun c => c = '0')).length '0' := by
    refine List.eq_replicate_of_mem ?_
    intro b hb
    have := List.mem_takeWhile_imp hb
    simpa using this
  have hL : L = stripTrailingZeros L
      ++ (L.reverse.takeWhile (fun c => c = '0')).reverse := by
    conv_lhs => rw [← List.reverse_reverse L, ← hsplit]
    rw [List.reverse_append]
    rfl
  have hlen : (stripTrailingZeros L).length ≤ L.length := by
    conv_rhs => rw [hL]
    simp
  refine ⟨hlen, ?_⟩
  conv_lhs => rw [hL]
  congr 1
  rw [hrep, List.reverse_replicate]
  congr 1
  have : L.length = (stripTrailingZeros L).length
      + (L.reverse.takeWhile (fun c => c = '0')).length := by
    conv_lhs => rw [hL]
    simp
  omega

theorem mem_stripTrailingZeros {c : Char} {L : List Char}
    (h : c ∈ stripTrailingZeros L) : c ∈ L := by
  unfold stripTrailingZeros at h
  rw [List.mem_reverse] at h
  have := (List.dropWhile_sublist (p := fun c => c = '0') (l := L.reverse)).mem h
  rwa [List.mem_reverse] at this

theorem padEndTake_strip (L : List Char) (d : ℕ) (hL : L.length = d) :
    padEndTake (stripTrailingZeros L) d = L := by
  obtain ⟨hlen, hdec⟩ := stripTrailingZeros_decomp L
  unfold padEndTake
  rw [hL] at hdec hlen
  rw [← hdec]
  subst hL
  exact List.take_length L

theorem jsSplitOn_of_not_mem (sep : Char) :
    ∀ (l : List Char), sep ∉ l → jsSplitOn sep l = [l]
  | [], _ => rfl
  | c :: t, h => by
    have hc : ¬(c = sep) := fun hc => h (by rw [hc]; exact List.mem_cons_self _ _)
    have ht : sep ∉ t := fun ht => h (List.mem_cons_of_mem c ht)
    rw [jsSplitOn]
    simp only [if_neg hc, jsSplitOn_of_not_mem sep t ht]

theorem jsSplitOn_append (sep : Char) :
    ∀ (A B : List Char), sep ∉ A →
      jsSplitOn sep (A ++ sep :: B) = A :: jsSplitOn sep B
  | [], B, _ => by
    rw [List.nil_append, jsSplitOn]
    simp
  | c :: A', B, h => by
    have hc : ¬(c = sep) := fun hc => h (by rw [hc]; exact List.mem_cons_self _ _)
    have hA : sep ∉ A' := fun hA => h (List.mem_cons_of_mem c hA)
    rw [List.cons_append, jsSplitOn]
    simp only [if_neg hc, jsSplitOn_append sep A' B hA]

theorem isDigitCh_ne_dot {c : Char} (h : isDigitCh c = true) : ¬(c = '.') := by
  intro hc
  rw [hc] at h
  exact absurd h (by decide)

theorem isDigitCh_ne_minus {c : Char} (h : isDigitCh c = true) : ¬(c = '-') := by
  intro hc
  rw [hc] at h
  exact absurd h (by decide)

theorem jsBigIntOfString_digits :
    ∀ (l : List Char), (∀ c ∈ l, isDigitCh c = true) →
      jsBigIntOfString l = some (digitsVal l : ℤ)
  | [], _ => by
    rw [jsBigIntOfString]
    norm_num [digitsVal]
  | c :: t, h => by
    have hc : isDigitCh c = true := h c (List.mem_cons_self _ _)
    rw [jsBigIntOfString, if_neg (isDigitCh_ne_minus hc),
      if_pos (List.all_eq_true.mpr (fun x hx => h x hx))]

/- ## C9: the decimal/raw round trip -/

/-- C9 counterexample: the valid 0-scaled integer `x = 2^53 + 1 =
9007199254740993` (a legal u64 raw token amount at 0 decimals).  Dividing by
`10^0` as the code computes it passes `x` through a JavaScript number, which
rounds it to the nearest double `9007199254740992`; feeding the printed amount
back through `convertToRawAmount` returns `9007199254740992 ≠ x` — the
round trip `toRaw(fromRaw(x, d), d) = x` fails. -/
theorem c9_round_trip_counterexample :
    convertToRawAmount (amountStringAtZeroDecimals 9007199254740993) 0
      = some 9007199254740992
    ∧ (9007199254740992 : ℤ) ≠ (9007199254740993 : ℤ) := by
  refine ⟨by decide, by decide⟩

/-- C9 amended: the string-manipulation core of `convertToRawAmount` is exact —
for every decimal count `d` and every `d`-scaled integer `x`, feeding it the
exact plain decimal string of `x / 10^d` (which is what `toString` yields
whenever the JavaScript number conversion and printing are exact and plain,
e.g. for `x < 2^53` with `x / 10^d ≥ 1e-6`) returns exactly `x`.  The round
trip fails only through the floating-point number passage, as in the
counterexample. -/
theorem c9_exact_string_round_trip (x d : ℕ) :
    convertToRawAmount (exactAmountString x d) d = some (x : ℤ) := by
  have hdm : x / 10 ^ d * 10 ^ d + x % 10 ^ d = x := by
    rw [Nat.mul_comm]
    exact Nat.div_add_mod x (10 ^ d)
  obtain ⟨hipv, hipd⟩ := natDigits_spec (x / 10 ^ d)
  have hnodot : '.' ∉ natDigits (x / 10 ^ d) :=
    fun hmem => isDigitCh_ne_dot (hipd _ hmem) rfl
  unfold exactAmountString
  by_cases hfr : x % 10 ^ d = 0
  · rw [if_pos hfr]
    unfold convertToRawAmount
    rw [jsSplitOn_of_not_mem _ _ hnodot]
    simp only [List.headD, List.get?, Option.getD]
    have hpad : padEndTake [] d = List.replicate d '0' := by
      unfold padEndTake
      simp
    rw [hpad]
    rw [jsBigIntOfString_digits _ ?hdigits]
    case hdigits =>
      intro c hc
      rcases List.mem_append.mp hc with hc | hc
      · exact hipd c hc
      · rw [List.eq_of_mem_replicate hc]
        decide
    rw [digitsVal_append, hipv, digitsVal_replicate_zero, List.length_replicate]
    congr 1
    omega
  · rw [if_neg hfr]
    obtain ⟨hfl, hfv, hfd⟩ := fracDigits_spec d (x % 10 ^ d)
    have hnodot2 : '.' ∉ stripTrailingZeros (fracDigits d (x % 10 ^ d)) := by
      intro hmem
      exact isDigitCh_ne_dot (hfd _ (mem_stripTrailingZeros hmem)) rfl
    unfold convertToRawAmount
    rw [jsSplitOn_append _ _ _ hnodot, jsSplitOn_of_not_mem _ _ hnodot2]
    simp only [List.headD, List.get?, Option.getD]
    rw [padEndTake_strip _ d hfl]
    rw [jsBigIntOfString_digits _ ?hdigits2]
    case hdigits2 =>
      intro c hc
      rcases List.mem_append.mp hc with hc | hc
      · exact hipd c hc
      · exact hfd c hc
    rw [digitsVal_append, hipv, hfv, hfl]
    have h2 : x % 10 ^ d % 10 ^ d = x % 10 ^ d :=
      Nat.mod_mod_of_dvd x (dvd_refl (10 ^ d))
    rw [h2]
    congr 1
    exact_mod_cast hdm

/- ## C10: dropped lines and positional pairing -/

theorem filterMap_get?_of_take {α β : Type} (f : α → Option β) :
    ∀ (l : List α) (p : ℕ) (x : α) (w : β),
      l.get? p = some x → f x = some w →
      (l.filterMap f).get? (((l.take p).filterMap f).length) = some w
  | [], p, _, _, hp, _ => by simp at hp
  | a :: t, 0, x, w, hp, hw => by
    have hax : a = x := by simpa using hp
    subst hax
    rw [List.take_zero]
    simp [List.filterMap_cons, hw]
  | a :: t, p + 1, x, w, hp, hw => by
    have hp' : t.get? p = some x := by simpa using hp
    rw [List.take_succ_cons]
    cases hfa : f a with
    | none =>
      simp only [List.filterMap_cons, hfa]
      exact filterMap_get?_of_take f t p x w hp' hw
    | some b =>
      simp only [List.filterMap_cons, hfa, List.length_cons]
      simpa using filterMap_get?_of_take f t p x w hp' hw

theorem filterMap_length_lt_of_none {α β : Type} (f : α → Option β) :
    ∀ (l : List α) (q : ℕ) (x : α), l.get? q = some x → f x = none →
      (l.filterMap f).length < l.length
  | [], q, _, hq, _ => by simp at hq
  | a :: t, 0, x, hq, hx => by
    have hax : a = x := by simpa using hq
    subst hax
    simp only [List.filterMap_cons, hx, List.length_cons]
    have := List.length_filterMap_le f t
    omega
  | a :: t, q + 1, x, hq, hx => by
    have hq' : t.get? q = some x := by simpa using hq
    have := filterMap_length_lt_of_none f t q x hq' hx
    cases hfa : f a with
    | none =>
      simp only [List.filterMap_cons, hfa, List.length_cons]
      omega
    | some b =>
      simp only [List.filterMap_cons, hfa, List.length_cons]
      omega

theorem zip_get?_of_both {α β : Type} :
    ∀ (l₁ : List α) (l₂ : List β) (i : ℕ) (a : α) (b : β),
      l₁.get? i = some a → l₂.get? i = some b →
      (l₁.zip l₂).get? i = some (a, b)
  | [], _, i, _, _, h, _ => by simp at h
  | _ :: _, [], i, _, _, _, h => by simp at h
  | x :: t₁, y :: t₂, 0, a, b, h₁, h₂ => by
    have hx : x = a := by simpa using h₁
    have hy : y = b := by simpa using h₂
    subst hx; subst hy
    rfl
  | x :: t₁, y :: t₂, i + 1, a, b, h₁, h₂ => by
    simpa [List.zip_cons_cons] using
      zip_get?_of_both t₁ t₂ i a b (by simpa using h₁) (by simpa using h₂)

/-- C10: `readWalletsFromCSV` drops every malformed data line (the parse failure
is caught, a warning is printed, the loop continues) and compacts the returned
list; because `executeBatchDrainWallet` pairs `sources[i]` with
`destinations[i]` positionally, a well-formed source line at data position `p`
preceded by a malformed line lands at an output index strictly below `p` and is
paired with the destination at that EARLIER index, not with the destination at
its own line position. -/
theorem c10_malformed_line_shifts_pairing (content : List Char)
    (dests : List (List Char)) (p q : ℕ) (lp lq : List Char) (w : WalletInfo)
    (ds : List Char)
    (hp : (walletDataLines content).get? p = some lp)
    (hw : parseWalletLine lp = some w)
    (hq : q < p)
    (hlq : (walletDataLines content).get? q = some lq)
    (hbad : parseWalletLine lq = none)
    (hd : dests.get?
      ((((walletDataLines content).take p).filterMap parseWalletLine).length)
      = some ds) :
    (((walletDataLines content).take p).filterMap parseWalletLine).length < p
    ∧ (batchDrainPairs (readWalletsFromCSV content) dests).get?
        ((((walletDataLines content).take p).filterMap parseWalletLine).length)
      = some (w, ds) := by
  have hplen : p < (walletDataLines content).length :=
    List.get?_eq_some.mp hp |>.1
  have htake_q : ((walletDataLines content).take p).get? q = some lq := by
    rw [List.get?_take hq]
    exact hlq
  have hs_lt : (((walletDataLines content).take p).filterMap
      parseWalletLine).length < p := by
    have hstrict := filterMap_length_lt_of_none parseWalletLine
      ((walletDataLines content).take p) q lq htake_q hbad
    have hlen : ((walletDataLines content).take p).length = p := by
      rw [List.length_take]
      omega
    omega
  refine ⟨hs_lt, ?_⟩
  have hfm := filterMap_get?_of_take parseWalletLine (walletDataLines content)
    p lp w hp hw
  have hwallets : readWalletsFromCSV content
      = (walletDataLines content).filterMap parseWalletLine := rfl
  rw [batchDrainPairs, hwallets]
  exact zip_get?_of_both _ _ _ _ _ hfm hd

/-- Witness for C10: wallets file `A1,K1,X / BAD / A3,K3,Y` (line 1 malformed)
with destinations `D0, D1, D2` — the wallet from line position 2 lands at output
index 1 and is paired with `D1`, one position earlier than its own line. -/
theorem c10_malformed_line_shifts_pairing_witness :
    ((((walletDataLines "A1,K1,X\nBAD\nA3,K3,Y".toList).take 2).filterMap
        parseWalletLine).length < 2)
    ∧ (batchDrainPairs (readWalletsFromCSV "A1,K1,X\nBAD\nA3,K3,Y".toList)
        ["D0".toList, "D1".toList, "D2".toList]).get?
        ((((walletDataLines "A1,K1,X\nBAD\nA3,K3,Y".toList).take 2).filterMap
          parseWalletLine).length)
      = some (⟨"A3".toList, "K3".toList, some "Y".toList⟩, "D1".toList) :=
  c10_malformed_line_shifts_pairing "A1,K1,X\nBAD\nA3,K3,Y".toList
    ["D0".toList, "D1".toList, "D2".toList] 2 1
    "A3,K3,Y".toList "BAD".toList ⟨"A3".toList, "K3".toList, some "Y".toList⟩
    "D1".toList (by decide) (by decide) (by decide) (by decide) (by decide)
    (by decide)
